import Mathlib

/-!
Shallow embedding of the data reconciliation and persistence layer of
`src/main.py` (Novel-Forge Tracker): the TinyDB-backed store (`save_data`,
`load_data`, `get_next_id`, `create_snapshot`, `calculate_countdown`) and the
chapter reconcile loop of tab 1 (lines 569-620).

Modelling conventions:
* A TinyDB table is an association list `List (Int × Doc)` in insertion order;
  `doc_id` is the first component.  TinyDB assigns `max existing doc_id + 1`
  (1 on an empty table) to inserted documents, the same formula as the
  program's `get_next_id`.
* Python dicts with optional keys become structures whose fields are `Option`;
  a `dict.update` (TinyDB `update`) overrides exactly the present fields.
* The `deadline` value stored in a chapter can be JSON null, a string, a
  Python `date` object, or some other non-string value; this is the `DVal`
  type.  `none` at the field level means the key is absent.
* Clock reads (`get_local_now`) become explicit `today` / `nowIso` arguments;
  file-system state for snapshots becomes a `List (String × Nat)` of
  (file name, mtime) pairs.
* TinyDB persists by `json.dump`-ing the whole database with no `default=`
  hook, so writing any document that holds a Python `date` object raises
  `TypeError`.  `save_data` therefore returns `Except String Store`, erroring
  at the first write of a non-serializable document.
* The string literals below reproduce the exact characters of the source file
  (the source is stored with mojibake-encoded emoji; the `\uXXXX` escapes are
  those exact characters).
-/

namespace NovelForge

/-- Calendar date as produced by `datetime.strptime(s, "%Y-%m-%d").date()`. -/
structure CivDate where
  year : Nat
  month : Nat
  day : Nat
deriving DecidableEq, Repr

/-- Gregorian leap-year test (as in Python's `datetime`). -/
def isLeap (y : Nat) : Bool := y % 4 == 0 && (y % 100 != 0 || y % 400 == 0)

/-- Days in a month of a given year (as validated by `datetime.date`). -/
def daysInMonth (y m : Nat) : Nat :=
  if m = 2 then (if isLeap y then 29 else 28)
  else if m = 4 || m = 6 || m = 9 || m = 11 then 30
  else 31

/-- Cumulative day count before month `m` in a common year. -/
def daysBeforeMonthCommon : Nat → Nat
  | 2 => 31 | 3 => 59 | 4 => 90 | 5 => 120 | 6 => 151 | 7 => 181
  | 8 => 212 | 9 => 243 | 10 => 273 | 11 => 304 | 12 => 334
  | _ => 0

/-- Cumulative day count before month `m` of year `y`. -/
def daysBeforeMonth (y m : Nat) : Nat :=
  daysBeforeMonthCommon m + (if 2 < m && isLeap y then 1 else 0)

/-- Proleptic-Gregorian ordinal of a date, Python's `date.toordinal`
(`date(1,1,1).toordinal() = 1`).  `timedelta.days` of a difference of two
dates is the difference of their ordinals. -/
def toOrdinal (d : CivDate) : Nat :=
  let y' := d.year - 1
  365 * y' + y' / 4 - y' / 100 + y' / 400 + daysBeforeMonth d.year d.month + d.day

/-- Python `str.split('-')` on the underlying character list. -/
def splitDash : List Char → List (List Char)
  | [] => [[]]
  | c :: rest =>
    let r := splitDash rest
    if c = '-' then [] :: r
    else
      match r with
      | h :: t => (c :: h) :: t
      | [] => [[c]]

/-- Numeric value of a decimal digit character. -/
def digitVal (c : Char) : Nat := c.toNat - 48

/-- Value of a list of decimal digit characters. -/
def digitsVal (l : List Char) : Nat := l.foldl (fun a c => a * 10 + digitVal c) 0

/-- Decimal digit character. -/
def digitChar (d : Nat) : Char := Char.ofNat (48 + d)

/-- Decimal digits of `n` (auxiliary, structurally recursive on fuel). -/
def natDigitsAux : Nat → Nat → List Char
  | 0, _ => []
  | fuel+1, n => if n = 0 then [] else natDigitsAux fuel (n / 10) ++ [digitChar (n % 10)]

/-- Decimal string of a natural number, as Python `str`. -/
def natToStr (n : Nat) : String := if n = 0 then "0" else String.mk (natDigitsAux (n + 1) n)

/-- Decimal string of an integer, as Python `str` / f-string interpolation. -/
def intToStr (i : Int) : String :=
  if i < 0 then "-" ++ natToStr i.natAbs else natToStr i.natAbs

/-- Parse a `YYYY-MM-DD` string exactly as
`datetime.strptime(s, "%Y-%m-%d").date()` accepts it: four year digits,
one or two month digits in 1..12, one or two day digits valid for that
month and year (year at least 1); anything else raises `ValueError`,
modelled as `none`. -/
def parseDate (s : String) : Option CivDate :=
  match splitDash s.data with
  | [ys, ms, ds] =>
    if ys.length = 4 && ys.all Char.isDigit
        && (ms.length = 1 || ms.length = 2) && ms.all Char.isDigit
        && (ds.length = 1 || ds.length = 2) && ds.all Char.isDigit then
      let y := digitsVal ys
      let m := digitsVal ms
      let d := digitsVal ds
      if 1 ≤ y && 1 ≤ m && m ≤ 12 && 1 ≤ d && d ≤ daysInMonth y m then
        some ⟨y, m, d⟩
      else none
    else none
  | _ => none

/-- Two-digit zero-padded decimal. -/
def pad2 (n : Nat) : List Char := [digitChar (n / 10 % 10), digitChar (n % 10)]

/-- Four-digit zero-padded decimal. -/
def pad4 (n : Nat) : List Char :=
  [digitChar (n / 1000 % 10), digitChar (n / 100 % 10), digitChar (n / 10 % 10),
    digitChar (n % 10)]

/-- Python `date.strftime('%Y-%m-%d')`. -/
def formatDate (d : CivDate) : String :=
  String.mk (pad4 d.year ++ ['-'] ++ pad2 d.month ++ ['-'] ++ pad2 d.day)

/-- Value of the persisted / in-memory `deadline` entry of a chapter record:
JSON null (Python `None`), a string, a Python `date` object, or any other
value (tracked only by its Python truthiness). -/
inductive DVal where
  | null : DVal
  | str (s : String) : DVal
  | dateV (d : CivDate) : DVal
  | other (truthy : Bool) : DVal
deriving DecidableEq, Repr

/-- Python truthiness of `chap.get('deadline')`: an absent key reads as
`None` (falsy); the empty string is falsy; a `date` object is truthy. -/
def dvTruthy : Option DVal → Bool
  | none => false
  | some .null => false
  | some (.str s) => !(s == "")
  | some (.dateV _) => true
  | some (.other b) => b

/-- Exact label text of line 96 of the source ("DUE TODAY" with the
source file's fire-emoji prefix bytes). -/
def dueTodayLabel : String := "üî• DUE TODAY"

/-- Exact label text of line 98 of the source ("1 day left" with the
source file's warning-emoji prefix bytes). -/
def oneDayLeftLabel : String := "‚ö†Ô∏è 1 day left"

/-- Exact default priority string of line 261 of the source ("Low" with the
source file's yellow-square-emoji prefix bytes). -/
def lowPriorityLabel : String := "üü® Low"

/-- Lines 85-102, `calculate_countdown(deadline_str)`.  The call
`get_local_now().date()` is passed explicitly as `today`.  A falsy deadline
yields "N/A"; `strptime` on a non-string raises `TypeError` and on an
unparsable string raises `ValueError`, both caught and mapped to
"Invalid Date"; otherwise the label depends on `delta.days`, the difference
of ordinals. -/
def calculate_countdown (deadline : Option DVal) (today : CivDate) : String :=
  if !dvTruthy deadline then "N/A"
  else
    match deadline with
    | some (.str s) =>
      match parseDate s with
      | none => "Invalid Date"
      | some dl =>
        let delta : Int := (toOrdinal dl : Int) - (toOrdinal today : Int)
        if delta < 0 then intToStr (-delta) ++ " days OVERDUE"
        else if delta = 0 then dueTodayLabel
        else if delta = 1 then oneDayLeftLabel
        else intToStr delta ++ " days left"
    | _ => "Invalid Date"

/-- A chapter document / in-memory chapter dict.  Every field is `Option`:
`none` means the key is absent.  `last_edited` and `deadline_obj` distinguish
a present-but-`None` value (`some none`) from an absent key (`none`). -/
structure ChapDoc where
  id : Option Int := none
  title : Option String := none
  status : Option String := none
  word_count : Option Int := none
  previous_word_count : Option Int := none
  priority : Option String := none
  deadline : Option DVal := none
  deadline_obj : Option (Option CivDate) := none
  last_edited : Option (Option String) := none
  _changed : Option Bool := none
deriving DecidableEq, Repr, Inhabited

/-- Python `dict.update`: every key present in `c` overrides the stored
field of `s`; absent keys keep the stored value.  Used by TinyDB
`table.update(fields, doc_ids=...)` and by `{**original, **mapped}`. -/
def mergeDoc (s c : ChapDoc) : ChapDoc where
  id := c.id <|> s.id
  title := c.title <|> s.title
  status := c.status <|> s.status
  word_count := c.word_count <|> s.word_count
  previous_word_count := c.previous_word_count <|> s.previous_word_count
  priority := c.priority <|> s.priority
  deadline := c.deadline <|> s.deadline
  deadline_obj := c.deadline_obj <|> s.deadline_obj
  last_edited := c.last_edited <|> s.last_edited
  _changed := c._changed <|> s._changed

/-- Editing-pass document (tab 2 records). -/
structure PassDoc where
  id : Option Int := none
  focus_area : Option String := none
  description : Option String := none
  chapter_id : Option (Option Int) := none
  completed : Option Bool := none
deriving DecidableEq, Repr, Inhabited

/-- Python `dict.update` for editing-pass documents. -/
def mergePass (s c : PassDoc) : PassDoc where
  id := c.id <|> s.id
  focus_area := c.focus_area <|> s.focus_area
  description := c.description <|> s.description
  chapter_id := c.chapter_id <|> s.chapter_id
  completed := c.completed <|> s.completed

/-- To-do document (tab 3 records). -/
structure TodoDoc where
  id : Option Int := none
  task : Option String := none
  completed : Option Bool := none
deriving DecidableEq, Repr, Inhabited

/-- Python `dict.update` for to-do documents. -/
def mergeTodo (s c : TodoDoc) : TodoDoc where
  id := c.id <|> s.id
  task := c.task <|> s.task
  completed := c.completed <|> s.completed

/-- Metadata singleton document. -/
structure MetaDoc where
  project_start_word_count : Option Int := none
  target_word_count : Option Int := none
  dark_mode : Option Bool := none
  doc_id : Option Int := none
deriving DecidableEq, Repr, Inhabited

/-- Python `dict.update` for the metadata document. -/
def mergeMeta (s c : MetaDoc) : MetaDoc where
  project_start_word_count := c.project_start_word_count <|> s.project_start_word_count
  target_word_count := c.target_word_count <|> s.target_word_count
  dark_mode := c.dark_mode <|> s.dark_mode
  doc_id := c.doc_id <|> s.doc_id

/-- Lines 271-277, `get_next_id(table)`: one more than the maximum stored
doc_id, starting the scan from 0 (so 1 on an empty table).  TinyDB's own
doc_id assignment on `insert` uses the same max-plus-one rule. -/
def get_next_id {α : Type} (table : List (Int × α)) : Int :=
  (table.foldl (fun m p => if p.1 > m then p.1 else m) 0) + 1

/-- TinyDB `table.get(doc_id=i)`. -/
def tableGet {α : Type} (table : List (Int × α)) (i : Int) : Option α :=
  (table.find? (fun p => p.1 == i)).map (fun p => p.2)

/-- TinyDB `table.contains(doc_id=i)`. -/
def tableContains {α : Type} (table : List (Int × α)) (i : Int) : Bool :=
  table.any (fun p => p.1 == i)

/-- The four TinyDB tables of the database file. -/
structure Store where
  chapters : List (Int × ChapDoc)
  editing_passes : List (Int × PassDoc)
  todos : List (Int × TodoDoc)
  metadata : List (Int × MetaDoc)
deriving DecidableEq, Repr

/-- In-memory application state (`st.session_state.app_data`). -/
structure AppState where
  chapters : List ChapDoc
  editing_passes : List PassDoc
  todos : List TodoDoc
  metadata : MetaDoc
deriving DecidableEq, Repr

/-- JSON-serializability of a chapter document: `json.dump` (as invoked by
TinyDB's storage with no `default=` hook) raises `TypeError` on a Python
`date` object, which can sit in `deadline` or in the derived `deadline_obj`
slot that `load_data` attaches. -/
def docSerializable (c : ChapDoc) : Bool :=
  (match c.deadline with
    | some (.dateV _) => false
    | _ => true)
  && (match c.deadline_obj with
    | some (some _) => false
    | _ => true)

/-- Truthy chapter id, line 137-138: `chapter.get('id')` followed by
`if not chapter_id: continue` — a missing, `None` or `0` id is skipped. -/
def chTruthyId (c : ChapDoc) : Option Int :=
  match c.id with
  | some v => if v = 0 then none else some v
  | none => none

/-- Lines 140-151 of `save_data`: serialize a `date`-typed deadline to a
string, stamp `last_edited` and drop the marker when `_changed` is truthy,
and normalize a missing/NaN word count to 0 (`none` models both). -/
def normChapter (nowIso : String) (ch : ChapDoc) : ChapDoc :=
  let ch1 :=
    match ch.deadline with
    | some (.dateV d) => { ch with deadline := some (.str (formatDate d)) }
    | _ => ch
  let ch2 :=
    if ch1._changed = some true then
      { ch1 with last_edited := some (some nowIso), _changed := none }
    else ch1
  { ch2 with word_count := some (ch2.word_count.getD 0) }

/-- Lines 153-159 of `save_data`: shift `previous_word_count` to the stored
word count when the incoming word count differs from it, set it to 0 for a
chapter with no stored document, and leave the incoming value alone when the
word count is unchanged. -/
def applyPrevWC (table : List (Int × ChapDoc)) (cid : Int) (ch : ChapDoc) : ChapDoc :=
  match tableGet table cid with
  | some existing =>
    if existing.word_count ≠ ch.word_count then
      { ch with previous_word_count := some (existing.word_count.getD 0) }
    else ch
  | none => { ch with previous_word_count := some 0 }

/-- Lines 161-164 of `save_data`: TinyDB upsert.  `update` merges the dict
into the stored document; `insert` appends a fresh document whose doc_id is
max-plus-one (the incoming `id` field is stored as plain data). -/
def writeChapter (table : List (Int × ChapDoc)) (cid : Int) (ch : ChapDoc) :
    List (Int × ChapDoc) :=
  if tableContains table cid then
    table.map (fun p => if p.1 == cid then (p.1, mergeDoc p.2 ch) else p)
  else
    table ++ [(get_next_id table, ch)]

/-- Error message of `json.dump` on a Python `date`. -/
def dateTypeError : String := "TypeError: Object of type date is not JSON serializable"

/-- Lines 135-165 of `save_data`: the chapter upsert loop, threading the
table and the `saved_chapter_ids` list, erroring at the first write that
leaves a non-serializable document in the database file. -/
def saveChaptersLoop (nowIso : String) :
    List (Int × ChapDoc) → List Int → List ChapDoc →
      Except String (List (Int × ChapDoc) × List Int)
  | table, saved, [] => .ok (table, saved)
  | table, saved, ch :: rest =>
    match chTruthyId ch with
    | none => saveChaptersLoop nowIso table saved rest
    | some cid =>
      let ch4 := applyPrevWC table cid (normChapter nowIso ch)
      let table2 := writeChapter table cid ch4
      if table2.all (fun p => docSerializable p.2) then
        saveChaptersLoop nowIso table2 (saved ++ [cid]) rest
      else .error dateTypeError

/-- Lines 167-171 of `save_data` (and 189-192, 207-210): delete every stored
document whose doc_id was not among the saved ids. -/
def removeAbsent {α : Type} (table : List (Int × α)) (saved : List Int) :
    List (Int × α) :=
  let all_db_ids := table.map (fun p => p.1)
  let ids_to_remove := all_db_ids.filter (fun i => !(saved.contains i))
  table.filter (fun p => !(ids_to_remove.contains p.1))

/-- Chapters portion of `save_data` (lines 134-171). -/
def save_chapters (nowIso : String) (table : List (Int × ChapDoc))
    (chs : List ChapDoc) : Except String (List (Int × ChapDoc)) :=
  match saveChaptersLoop nowIso table [] chs with
  | .error e => .error e
  | .ok (table2, saved) => .ok (removeAbsent table2 saved)

/-- Truthy editing-pass id (lines 176-177). -/
def passTruthyId (p : PassDoc) : Option Int :=
  match p.id with
  | some v => if v = 0 then none else some v
  | none => none

/-- Lines 174-187 of `save_data`: the editing-pass upsert loop. -/
def savePassesLoop :
    List (Int × PassDoc) → List Int → List PassDoc →
      List (Int × PassDoc) × List Int
  | table, saved, [] => (table, saved)
  | table, saved, p :: rest =>
    match passTruthyId p with
    | none => savePassesLoop table saved rest
    | some pid =>
      let table2 :=
        if tableContains table pid then
          table.map (fun q => if q.1 == pid then (q.1, mergePass q.2 p) else q)
        else table ++ [(get_next_id table, p)]
      savePassesLoop table2 (saved ++ [pid]) rest

/-- Truthy to-do id (lines 198-199). -/
def todoTruthyId (t : TodoDoc) : Option Int :=
  match t.id with
  | some v => if v = 0 then none else some v
  | none => none

/-- Lines 196-205 of `save_data`: the to-do upsert loop. -/
def saveTodosLoop :
    List (Int × TodoDoc) → List Int → List TodoDoc →
      List (Int × TodoDoc) × List Int
  | table, saved, [] => (table, saved)
  | table, saved, t :: rest =>
    match todoTruthyId t with
    | none => saveTodosLoop table saved rest
    | some tid =>
      let table2 :=
        if tableContains table tid then
          table.map (fun q => if q.1 == tid then (q.1, mergeTodo q.2 t) else q)
        else table ++ [(get_next_id table, t)]
      saveTodosLoop table2 (saved ++ [tid]) rest

/-- Lines 127-132 of `save_data`: upsert the metadata singleton at doc_id 1
(on insert the extra field `doc_id: 1` is added to the data; TinyDB assigns
the document id itself). -/
def saveMetadata (mtable : List (Int × MetaDoc)) (meta : MetaDoc) :
    List (Int × MetaDoc) :=
  if tableContains mtable 1 then
    mtable.map (fun p => if p.1 == 1 then (p.1, mergeMeta p.2 meta) else p)
  else mtable ++ [(get_next_id mtable, { meta with doc_id := some 1 })]

/-- Lines 122-214, `save_data(data_dict)`: upsert metadata, then the three
record collections in order, deleting stored records absent from the
supplied sequences.  The snapshot side effect is modelled separately by
`create_snapshot`.  The current local time is passed as `nowIso`. -/
def save_data (store : Store) (st : AppState) (nowIso : String) :
    Except String Store :=
  let mtable := saveMetadata store.metadata st.metadata
  match save_chapters nowIso store.chapters st.chapters with
  | .error e => .error e
  | .ok ctable =>
    let (ptable, psaved) := savePassesLoop store.editing_passes [] st.editing_passes
    let ptable2 := removeAbsent ptable psaved
    let (ttable, tsaved) := saveTodosLoop store.todos [] st.todos
    let ttable2 := removeAbsent ttable tsaved
    .ok { chapters := ctable, editing_passes := ptable2, todos := ttable2,
          metadata := mtable }

/-- Default metadata of line 246. -/
def defaultMetadata : MetaDoc :=
  { project_start_word_count := some 0, target_word_count := some 80000,
    dark_mode := some false, doc_id := some 1 }

/-- Lines 248-261 of `load_data`: attach the parsed `deadline_obj` (a truthy
string deadline parses to `some (some d)` on success and to `some none` on
`ValueError`; a truthy non-string raises `TypeError`, also caught to
`some none`; a falsy deadline yields `some none`), then fill the defaults
for the optional fields. -/
def loadChapter (c : ChapDoc) : ChapDoc :=
  let c1 :=
    if dvTruthy c.deadline then
      match c.deadline with
      | some (.str s) => { c with deadline_obj := some (parseDate s) }
      | _ => { c with deadline_obj := some none }
    else { c with deadline_obj := some none }
  { c1 with
    word_count := c1.word_count <|> some 0,
    previous_word_count := c1.previous_word_count <|> some 0,
    status := c1.status <|> some "Not Started",
    priority := c1.priority <|> some lowPriorityLabel }

/-- Lines 241-269, `load_data()` on an existing database file: read each
table, attach the storage doc_id as a visible `id` field, convert deadline
strings to date objects, fill defaults, and default the metadata singleton
when none is stored.  (The demo-data bootstrap of lines 219-239 concerns a
missing database file and is not modelled.) -/
def load_data (store : Store) : AppState :=
  let chapters := store.chapters.map (fun p => loadChapter { p.2 with id := some p.1 })
  let editing_passes := store.editing_passes.map (fun p => { p.2 with id := some p.1 })
  let todos := store.todos.map (fun p => { p.2 with id := some p.1 })
  let metadata :=
    match store.metadata with
    | [] => defaultMetadata
    | p :: _ => p.2
  { chapters := chapters, editing_passes := editing_passes, todos := todos,
    metadata := metadata }

/-- A row of the tab-1 `st.data_editor` snapshot, restricted to the columns
the reconcile loop reads.  `_id` is the hidden id column (`none` models the
NaN of a freshly added row); `WordCount` is `none` when the cell is NaN;
`Deadline` is the date-picker value or `none`. -/
structure EditedRow where
  _id : Option Int := none
  Title : String := ""
  Status : String := ""
  WordCount : Option Int := none
  Priority : String := ""
  Deadline : Option CivDate := none
deriving DecidableEq, Repr, Inhabited

/-- Lines 578-586: map an editor row back to the database field structure.
The deadline becomes an ISO string (or `None`), a NaN word count becomes 0,
and the `_changed` marker starts false. -/
def mapRow (r : EditedRow) : ChapDoc where
  id := r._id
  title := some r.Title
  status := some r.Status
  word_count := some (r.WordCount.getD 0)
  priority := some r.Priority
  deadline := some (match r.Deadline with
    | some d => .str (formatDate d)
    | none => .null)
  _changed := some false

/-- Line 575: find the session chapter whose `id` equals the row's hidden
`_id` (first match; a NaN `_id` matches nothing). -/
def findOriginal (chs : List ChapDoc) (rid : Option Int) : Option ChapDoc :=
  match rid with
  | none => none
  | some v => chs.find? (fun c => c.id == some v)

/-- Python `==` between the stored deadline value (as read by
`original_chapter.get('deadline')`) and the mapped row's deadline (always a
string or `None` after line 584). -/
def deadlineEqPy (o : Option DVal) (e : DVal) : Bool :=
  match o, e with
  | none, .null => true
  | some .null, .null => true
  | some (.str s), .str t => s == t
  | _, _ => false

/-- Lines 589-608: compare the five tracked fields of the mapped row against
the original chapter (an absent original key reads as `None` and compares
unequal to any concrete value). -/
def rowChanged (orig : ChapDoc) (r : EditedRow) : Bool :=
  !(orig.title == some r.Title)
  || !(orig.status == some r.Status)
  || !(orig.word_count == some (r.WordCount.getD 0))
  || !(orig.priority == some r.Priority)
  || !(deadlineEqPy orig.deadline (match r.Deadline with
      | some d => .str (formatDate d)
      | none => .null))

/-- Lines 574-620: reconcile one editor row.  A matched row carries forward
`previous_word_count` and `last_edited` from the original (lines 609-611)
and merges over it (line 612); an unmatched row is new: it receives
`get_next_id` of the chapters table, `previous_word_count` 0, `last_edited`
now, and the changed marker (lines 614-619). -/
def reconcileRow (table : List (Int × ChapDoc)) (chs : List ChapDoc)
    (nowIso : String) (r : EditedRow) : ChapDoc :=
  match findOriginal chs r._id with
  | some orig =>
    let m := { mapRow r with
      _changed := some (rowChanged orig r),
      previous_word_count :=
        some (orig.previous_word_count.getD (orig.word_count.getD 0)),
      last_edited := some (orig.last_edited.getD none) }
    mergeDoc orig m
  | none =>
    { mapRow r with
      id := some (get_next_id table),
      previous_word_count := some 0,
      last_edited := some (some nowIso),
      _changed := some true }

/-- Lines 569-620: the full reconcile pass over the edited snapshot,
producing `current_app_state` for the chapters collection.  Note that
`get_next_id` is evaluated against the unchanged stored table for every
new row. -/
def reconcileChapters (table : List (Int × ChapDoc)) (chs : List ChapDoc)
    (nowIso : String) (rows : List EditedRow) : List ChapDoc :=
  rows.map (reconcileRow table chs nowIso)

/-- Line 16. -/
def MAX_SNAPSHOTS : Nat := 5

/-- Dated snapshot file name of line 107. -/
def snapName (todayStr : String) : String :=
  "novel_forge_db_" ++ todayStr ++ ".json"

/-- Python `name.endswith('.json')` as matched by the `*.json` glob. -/
def endsWithJson (name : String) : Bool :=
  ['.', 'j', 's', 'o', 'n'].isSuffixOf name.data

/-- Lines 104-120, `create_snapshot()`.  The snapshot directory is a list of
(file name, mtime) pairs; `todayStr` is `get_local_now().strftime('%Y-%m-%d')`
and `nowMtime` the mtime the copied file receives.  If a file for today
already exists nothing happens; otherwise the database file is copied in and
the `*.json` files beyond the `MAX_SNAPSHOTS` newest (by mtime, descending,
Python's stable `sorted`) are deleted. -/
def create_snapshot (dir : List (String × Nat)) (todayStr : String)
    (nowMtime : Nat) : List (String × Nat) :=
  let file := snapName todayStr
  if dir.any (fun f => f.1 == file) then dir
  else
    let dir1 := dir ++ [(file, nowMtime)]
    let snapshots :=
      (dir1.filter (fun f => endsWithJson f.1)).insertionSort
        (fun a b => b.2 ≤ a.2)
    let old := snapshots.drop MAX_SNAPSHOTS
    dir1.filter (fun f => !(old.any (fun g => g.1 == f.1)))

/-! Concrete inputs used by the scenario theorems and witnesses below. -/

/-- A stored chapter carrying a valid deadline string. -/
def deadlineChapter : ChapDoc :=
  { title := some "Chapter One", status := some "Draft",
    word_count := some 1200, previous_word_count := some 1000,
    priority := some lowPriorityLabel, deadline := some (.str "2025-06-01"),
    last_edited := some (some "2025-04-29T10:15:00") }

/-- A store whose single chapter has a deadline. -/
def deadlineStore : Store :=
  { chapters := [(1, deadlineChapter)], editing_passes := [], todos := [],
    metadata := [(1, defaultMetadata)] }

/-- Stored chapter without a deadline (used by the {1,2,3} scenarios). -/
def plainChapter (t : String) (wc : Int) : ChapDoc :=
  { title := some t, status := some "Draft", word_count := some wc,
    previous_word_count := some wc, priority := some lowPriorityLabel,
    deadline := some .null, last_edited := some none }

/-- A store holding chapters with identifiers 1, 2, 3. -/
def store123 : Store :=
  { chapters := [(1, plainChapter "Alpha" 1000), (2, plainChapter "Beta" 2000),
      (3, plainChapter "Gamma" 3000)],
    editing_passes := [], todos := [], metadata := [(1, defaultMetadata)] }

/-- Editor row matching a stored plain chapter unchanged. -/
def plainRow (i : Int) (t : String) (wc : Int) : EditedRow :=
  { _id := some i, Title := t, Status := "Draft", WordCount := some wc,
    Priority := lowPriorityLabel, Deadline := none }

/-- Editor row freshly added in the data editor (no hidden id yet). -/
def newRow (t : String) (wc : Int) : EditedRow :=
  { _id := none, Title := t, Status := "Not Started", WordCount := some wc,
    Priority := lowPriorityLabel, Deadline := none }

/-- A store holding a single chapter with identifier 1. -/
def store1 : Store :=
  { chapters := [(1, plainChapter "Alpha" 1000)], editing_passes := [],
    todos := [], metadata := [(1, defaultMetadata)] }

/-- Seven snapshot files with distinct mtimes, today's among them. -/
def dir7 : List (String × Nat) :=
  [(snapName "2025-04-24", 24), (snapName "2025-04-25", 25),
    (snapName "2025-04-26", 26), (snapName "2025-04-27", 27),
    (snapName "2025-04-28", 28), (snapName "2025-04-29", 29),
    (snapName "2025-04-30", 30)]

/-- Seven snapshot files with distinct mtimes, none for 2025-05-01. -/
def dir7b : List (String × Nat) := dir7

/-- A store whose single chapter is missing all optional fields. -/
def sparseStore : Store :=
  { chapters := [(1, { title := some "Bare" })], editing_passes := [],
    todos := [], metadata := [] }

/-- A store whose single chapter has an unparsable deadline string. -/
def corruptStore : Store :=
  { chapters := [(1, { title := some "Bad", deadline := some (.str "not-a-date") })],
    editing_passes := [], todos := [], metadata := [] }

/-- Restriction of a supplied state to its records with truthy ids
(the records `save_data` does not skip). -/
def filterTruthy (st : AppState) : AppState :=
  { st with
    chapters := st.chapters.filter (fun c => (chTruthyId c).isSome),
    editing_passes := st.editing_passes.filter (fun p => (passTruthyId p).isSome),
    todos := st.todos.filter (fun t => (todoTruthyId t).isSome) }

/-- An editing pass that was never assigned an id. -/
def idlessPass : PassDoc :=
  { id := none, focus_area := some "Pacing", description := some "tighten",
    chapter_id := some none, completed := some false }

/-- A to-do whose id degenerated to 0. -/
def zeroIdTodo : TodoDoc :=
  { id := some 0, task := some "lost", completed := some false }

/-- A to-do with a proper id. -/
def keptTodo : TodoDoc :=
  { id := some 2, task := some "kept", completed := some false }

/-- An in-memory state mixing records with truthy and falsy ids. -/
def mixedState : AppState :=
  { chapters := [{ plainChapter "Kept" 10 with id := some 1 },
      { plainChapter "NoId" 20 with id := none },
      { plainChapter "ZeroId" 30 with id := some 0 }],
    editing_passes := [idlessPass],
    todos := [zeroIdTodo, keptTodo],
    metadata := defaultMetadata }

/-- A store for the skipped-record scenario: chapter 1 and todo 2 stored. -/
def mixedStore : Store :=
  { chapters := [(1, plainChapter "Kept" 10)], editing_passes := [],
    todos := [(2, keptTodo)], metadata := [(1, defaultMetadata)] }

/-- Steady-state link between the session chapters and the stored table:
every session chapter carries a positive id naming a stored document whose
word count and previous word count agree with it (and the session previous
word count is present, as `load_data` guarantees).  This is the state the
app is in whenever the tab-1 reconcile runs, since the session collection
was produced by `load_data` (or by the previous save). -/
def steadyState (table : List (Int × ChapDoc)) (chs : List ChapDoc) : Prop :=
  ∀ c ∈ chs, c.id.isSome ∧ 0 < c.id.getD 0 ∧
    (tableGet table (c.id.getD 0)).isSome ∧
    ((tableGet table (c.id.getD 0)).getD {}).word_count = c.word_count ∧
    ((tableGet table (c.id.getD 0)).getD {}).previous_word_count
      = c.previous_word_count ∧
    c.previous_word_count.isSome

/-- Hidden ids of the edited rows that match a session chapter. -/
def matchedIds (chs : List ChapDoc) (rows : List EditedRow) : List Int :=
  rows.filterMap (fun r =>
    match findOriginal chs r._id with
    | some _ => r._id
    | none => none)

/-- Edited rows that match no session chapter (treated as new records). -/
def newRows (chs : List ChapDoc) (rows : List EditedRow) : List EditedRow :=
  rows.filter (fun r => (findOriginal chs r._id).isNone)

/-- Serializability of every document of a chapters table. -/
def tableSerializable (table : List (Int × ChapDoc)) : Bool :=
  table.all (fun p => docSerializable p.2)

/-- The chapter document stored after saving `mixedState` over `mixedStore`. -/
def keptChapterSaved : ChapDoc :=
  { id := some 1, title := some "Kept", status := some "Draft",
    word_count := some 10, previous_word_count := some 10,
    priority := some lowPriorityLabel, deadline := some .null,
    last_edited := some none }

/-- The store produced by saving `mixedState` over `mixedStore`. -/
def mixedResult : Store :=
  { chapters := [(1, keptChapterSaved)], editing_passes := [],
    todos := [(2, keptTodo)], metadata := [(1, defaultMetadata)] }

/-! Helper lemmas. -/

/-- Field projections of `loadChapter`: only `deadline_obj` is computed,
every other optional field is defaulted with `setdefault`. -/
theorem loadChapter_fields (c : ChapDoc) :
    (loadChapter c).status = (c.status <|> some "Not Started")
    ∧ (loadChapter c).priority = (c.priority <|> some lowPriorityLabel)
    ∧ (loadChapter c).word_count = (c.word_count <|> some 0)
    ∧ (loadChapter c).previous_word_count = (c.previous_word_count <|> some 0)
    ∧ (loadChapter c).title = c.title
    ∧ (loadChapter c).id = c.id := by
  unfold loadChapter
  split
  · split <;> simp
  · simp

/-! Claim theorems. -/

/-- C2 (code bug): the spec's round-trip property says `save(load())`
succeeds and restores the same state, in particular when chapters carry
deadlines.  The code instead raises: `load_data` attaches the parsed
`deadline_obj` date object to every chapter, `save_data` writes it back
into TinyDB unchanged, and the JSON serializer cannot encode a Python
`date`.  On a store whose one chapter has deadline "2025-06-01" the saved
database raises `TypeError` instead of completing the round trip. -/
theorem c2_roundtrip_save_raises :
    save_data deadlineStore (load_data deadlineStore) "2025-05-01T09:00:00"
      = Except.error dateTypeError := by rfl

/-- C3 (confirmed): reconciling a previous collection with identifiers
{1,2,3} against an edited snapshot in which row 3 is removed and one
unidentified row is added yields identifiers {1,2,4} after the save: the
new row gets `get_next_id` = max existing id + 1 = 4 and the deleted id 3
is not reused. -/
theorem c3_identifier_assignment :
    get_next_id store123.chapters = 4
    ∧ (reconcileChapters store123.chapters (load_data store123).chapters
        "2025-05-01T09:00:00"
        [plainRow 1 "Alpha" 1000, plainRow 2 "Beta" 2000, newRow "Delta" 0]).map
          (fun c => c.id) = [some 1, some 2, some 4]
    ∧ (save_data store123
        { load_data store123 with
          chapters := reconcileChapters store123.chapters
            (load_data store123).chapters "2025-05-01T09:00:00"
            [plainRow 1 "Alpha" 1000, plainRow 2 "Beta" 2000, newRow "Delta" 0] }
        "2025-05-01T09:00:00").toOption.map
          (fun s => s.chapters.map (fun p => p.1)) = some [1, 2, 4] := by
  exact ⟨rfl, rfl, rfl⟩

/-- C5 (counterexample): the claim says `countdown` returns the label
"DUE TODAY" when today equals the deadline; the code returns the label with
the source's emoji prefix, a different string. -/
theorem c5_label_counterexample :
    calculate_countdown (some (.str "2025-06-01")) ⟨2025, 6, 1⟩ = dueTodayLabel
    ∧ dueTodayLabel ≠ "DUE TODAY" := ⟨rfl, by decide⟩

/-- C5 (amended): for every deadline value and today, `calculate_countdown`
returns exactly one of the five labels and never raises (it is a total
function): "N/A" for a falsy deadline; "Invalid Date" for a truthy
unparsable string or a truthy non-string; and for a parsed deadline D the
label decided by `delta = D - today`: "{delta} days OVERDUE" (delta < 0,
magnitude shown), the due-today label (delta = 0), the one-day-left label
(delta = 1), or "{delta} days left" (delta ≥ 2) — the due-today and
one-day-left labels carrying the source file's emoji prefixes.  The listed
conditions are mutually exclusive, so exactly one case applies. -/
theorem c5_countdown_cases (dl : Option DVal) (today : CivDate) :
    (dvTruthy dl = false ∧ calculate_countdown dl today = "N/A")
    ∨ (dvTruthy dl = true ∧ (∃ s, dl = some (.str s) ∧ parseDate s = none)
        ∧ calculate_countdown dl today = "Invalid Date")
    ∨ (dvTruthy dl = true ∧ (∀ s, dl ≠ some (.str s))
        ∧ calculate_countdown dl today = "Invalid Date")
    ∨ (∃ s D, dl = some (.str s) ∧ parseDate s = some D
        ∧ ((toOrdinal D < toOrdinal today
              ∧ calculate_countdown dl today
                = intToStr ((toOrdinal today : Int) - (toOrdinal D : Int))
                  ++ " days OVERDUE")
          ∨ (toOrdinal D = toOrdinal today
              ∧ calculate_countdown dl today = dueTodayLabel)
          ∨ ((toOrdinal D : Int) - (toOrdinal today : Int) = 1
              ∧ calculate_countdown dl today = oneDayLeftLabel)
          ∨ (2 ≤ (toOrdinal D : Int) - (toOrdinal today : Int)
              ∧ calculate_countdown dl today
                = intToStr ((toOrdinal D : Int) - (toOrdinal today : Int))
                  ++ " days left"))) := by
  by_cases h : dvTruthy dl = true
  · cases dl with
    | none => simp [dvTruthy] at h
    | some v =>
      cases v with
      | null => simp [dvTruthy] at h
      | dateV d =>
        refine Or.inr (Or.inr (Or.inl ⟨h, fun s => by simp, ?_⟩))
        simp [calculate_countdown, h]
      | other b =>
        refine Or.inr (Or.inr (Or.inl ⟨h, fun s => by simp, ?_⟩))
        simp [calculate_countdown, h]
      | str s =>
        cases hp : parseDate s with
        | none =>
          refine Or.inr (Or.inl ⟨h, ⟨s, rfl, hp⟩, ?_⟩)
          simp [calculate_countdown, h, hp]
        | some D =>
          refine Or.inr (Or.inr (Or.inr ⟨s, D, rfl, hp, ?_⟩))
          have hcalc : calculate_countdown (some (.str s)) today
              = (if ((toOrdinal D : Int) - (toOrdinal today : Int)) < 0 then
                  intToStr (-((toOrdinal D : Int) - (toOrdinal today : Int)))
                    ++ " days OVERDUE"
                else if ((toOrdinal D : Int) - (toOrdinal today : Int)) = 0 then
                  dueTodayLabel
                else if ((toOrdinal D : Int) - (toOrdinal today : Int)) = 1 then
                  oneDayLeftLabel
                else
                  intToStr ((toOrdinal D : Int) - (toOrdinal today : Int))
                    ++ " days left") := by
            simp [calculate_countdown, h, hp]
          rcases lt_or_ge ((toOrdinal D : Int) - (toOrdinal today : Int)) 0 with
            hlt | hge
          · refine Or.inl ⟨by omega, ?_⟩
            rw [hcalc, if_pos hlt]
            have harg : -((toOrdinal D : Int) - (toOrdinal today : Int))
                = (toOrdinal today : Int) - (toOrdinal D : Int) := by ring
            rw [harg]
          · by_cases h0 : ((toOrdinal D : Int) - (toOrdinal today : Int)) = 0
            · refine Or.inr (Or.inl ⟨by omega, ?_⟩)
              rw [hcalc, if_neg (by omega), if_pos h0]
            · by_cases h1 : ((toOrdinal D : Int) - (toOrdinal today : Int)) = 1
              · refine Or.inr (Or.inr (Or.inl ⟨h1, ?_⟩))
                rw [hcalc, if_neg (by omega), if_neg h0, if_pos h1]
              · refine Or.inr (Or.inr (Or.inr ⟨by omega, ?_⟩))
                rw [hcalc, if_neg (by omega), if_neg h0, if_neg h1]
  · left
    refine ⟨by simpa using h, ?_⟩
    simp only [Bool.not_eq_true] at h
    simp [calculate_countdown, h]

/-- C6 (counterexample): with seven snapshot files of distinct mtimes and a
snapshot for the current date already present, a `create_snapshot` call does
nothing — all seven files remain, not the claimed five. -/
theorem c6_prune_counterexample :
    create_snapshot dir7 "2025-04-30" 31 = dir7 ∧ dir7.length = 7 :=
  ⟨rfl, rfl⟩

/-- C8 (counterexample): the claim says the priority of a chapter missing
that field defaults to "Low"; `load_data` defaults it to the source's
emoji-prefixed Low string, which is a different string. -/
theorem c8_priority_counterexample :
    (load_data sparseStore).chapters.map (fun c => c.priority)
      = [some lowPriorityLabel]
    ∧ lowPriorityLabel ≠ "Low" := ⟨rfl, by decide⟩

/-- C8 (amended): `load_data` fills defaults for chapters missing optional
fields — status "Not Started", priority the stored encoding of Low (the
source's emoji-prefixed "Low" string), word_count and previous_word_count 0
— and when no metadata record is stored it returns the singleton
{project_start_word_count: 0, target_word_count: 80000, dark_mode: false}
(which also carries the fixed doc_id field 1). -/
theorem c8_load_defaults :
    (∀ (store : Store) (k : Nat) (p : Int × ChapDoc),
      store.chapters[k]? = some p →
      ∃ c, (load_data store).chapters[k]? = some c
        ∧ (p.2.status = none → c.status = some "Not Started")
        ∧ (p.2.priority = none → c.priority = some lowPriorityLabel)
        ∧ (p.2.word_count = none → c.word_count = some 0)
        ∧ (p.2.previous_word_count = none → c.previous_word_count = some 0))
    ∧ ∀ (store : Store), store.metadata = [] →
        (load_data store).metadata = defaultMetadata := by
  constructor
  · intro store k p hp
    refine ⟨loadChapter { p.2 with id := some p.1 }, ?_, ?_, ?_, ?_, ?_⟩
    · show (List.map _ store.chapters)[k]? = _
      rw [List.getElem?_map, hp]
      rfl
    · intro h
      rw [(loadChapter_fields _).1]
      have : ({ p.2 with id := some p.1 } : ChapDoc).status = p.2.status := rfl
      rw [this, h]
      rfl
    · intro h
      rw [(loadChapter_fields _).2.1]
      have : ({ p.2 with id := some p.1 } : ChapDoc).priority = p.2.priority := rfl
      rw [this, h]
      rfl
    · intro h
      rw [(loadChapter_fields _).2.2.1]
      have : ({ p.2 with id := some p.1 } : ChapDoc).word_count
          = p.2.word_count := rfl
      rw [this, h]
      rfl
    · intro h
      rw [(loadChapter_fields _).2.2.2.1]
      have : ({ p.2 with id := some p.1 } : ChapDoc).previous_word_count
          = p.2.previous_word_count := rfl
      rw [this, h]
      rfl
  · intro store h
    simp [load_data, h]

/-- Witness for C8: on a store whose chapter is missing every optional field
and which stores no metadata, the defaults are filled as amended. -/
theorem c8_load_defaults_witness :
    (∃ c, (load_data sparseStore).chapters[0]? = some c
      ∧ c.status = some "Not Started"
      ∧ c.priority = some lowPriorityLabel
      ∧ c.word_count = some 0
      ∧ c.previous_word_count = some 0)
    ∧ (load_data sparseStore).metadata = defaultMetadata := by
  constructor
  · obtain ⟨c, hc, h1, h2, h3, h4⟩ :=
      c8_load_defaults.1 sparseStore 0 (1, { title := some "Bare" }) rfl
    exact ⟨c, hc, h1 rfl, h2 rfl, h3 rfl, h4 rfl⟩
  · exact c8_load_defaults.2 sparseStore rfl

/-- C9 (confirmed): a stored chapter whose deadline is missing, null, a
non-string value (including a date object), or an unparsable string loads
with no parsed date — `deadline_obj` is present but `None` — and `load_data`
is a total function, so the corrupt value never raises. -/
theorem c9_corrupt_deadline (store : Store) (k : Nat) (p : Int × ChapDoc)
    (hp : store.chapters[k]? = some p)
    (hbad : p.2.deadline = none ∨ p.2.deadline = some .null
      ∨ (∃ s, p.2.deadline = some (.str s) ∧ parseDate s = none)
      ∨ (∃ d, p.2.deadline = some (.dateV d))
      ∨ (∃ b, p.2.deadline = some (.other b))) :
    ∃ c, (load_data store).chapters[k]? = some c
      ∧ c.deadline_obj = some none := by
  refine ⟨loadChapter { p.2 with id := some p.1 }, ?_, ?_⟩
  · show (List.map _ store.chapters)[k]? = _
    rw [List.getElem?_map, hp]
    rfl
  · have hd : ({ p.2 with id := some p.1 } : ChapDoc).deadline
        = p.2.deadline := rfl
    unfold loadChapter
    rcases hbad with h | h | ⟨s, h, hps⟩ | ⟨d, h⟩ | ⟨b, h⟩
    · simp [hd, h, dvTruthy]
    · simp [hd, h, dvTruthy]
    · by_cases hs : s = ""
      · simp [hd, h, hs, dvTruthy]
      · simp [hd, h, hs, dvTruthy, hps]
    · simp [hd, h, dvTruthy]
    · cases b <;> simp [hd, h, dvTruthy]

/-- Witness for C9: a store whose chapter has the unparsable deadline
string "not-a-date" loads with a present-but-empty parsed date slot. -/
theorem c9_corrupt_deadline_witness :
    ∃ c, (load_data corruptStore).chapters[0]? = some c
      ∧ c.deadline_obj = some none :=
  c9_corrupt_deadline corruptStore 0
    (1, { title := some "Bad", deadline := some (.str "not-a-date") }) rfl
    (Or.inr (Or.inr (Or.inl ⟨"not-a-date", rfl, by decide⟩)))

/-- The chapter loop ignores records with falsy ids: running it on the
filtered list gives the same result. -/
theorem saveChaptersLoop_skip_falsy (nowIso : String) (chs : List ChapDoc) :
    ∀ (table : List (Int × ChapDoc)) (saved : List Int),
      saveChaptersLoop nowIso table saved chs
        = saveChaptersLoop nowIso table saved
            (chs.filter (fun c => (chTruthyId c).isSome)) := by
  induction chs with
  | nil => intro table saved; rfl
  | cons ch rest ih =>
    intro table saved
    cases h : chTruthyId ch with
    | none =>
      simp only [saveChaptersLoop, h, List.filter_cons, Option.isSome_none,
        Bool.false_eq_true, if_false]
      exact ih table saved
    | some cid =>
      simp only [saveChaptersLoop, h, List.filter_cons, Option.isSome_some,
        if_true]
      split
      · exact ih _ _
      · rfl

/-- The editing-pass loop ignores records with falsy ids. -/
theorem savePassesLoop_skip_falsy (ps : List PassDoc) :
    ∀ (table : List (Int × PassDoc)) (saved : List Int),
      savePassesLoop table saved ps
        = savePassesLoop table saved
            (ps.filter (fun p => (passTruthyId p).isSome)) := by
  induction ps with
  | nil => intro table saved; rfl
  | cons p rest ih =>
    intro table saved
    cases h : passTruthyId p with
    | none =>
      simp only [savePassesLoop, h, List.filter_cons, Option.isSome_none,
        Bool.false_eq_true, if_false]
      exact ih table saved
    | some pid =>
      simp only [savePassesLoop, h, List.filter_cons, Option.isSome_some,
        if_true]
      exact ih _ _

/-- The to-do loop ignores records with falsy ids. -/
theorem saveTodosLoop_skip_falsy (ts : List TodoDoc) :
    ∀ (table : List (Int × TodoDoc)) (saved : List Int),
      saveTodosLoop table saved ts
        = saveTodosLoop table saved
            (ts.filter (fun t => (todoTruthyId t).isSome)) := by
  induction ts with
  | nil => intro table saved; rfl
  | cons t rest ih =>
    intro table saved
    cases h : todoTruthyId t with
    | none =>
      simp only [saveTodosLoop, h, List.filter_cons, Option.isSome_none,
        Bool.false_eq_true, if_false]
      exact ih table saved
    | some tid =>
      simp only [saveTodosLoop, h, List.filter_cons, Option.isSome_some,
        if_true]
      exact ih _ _

/-- On success, the chapter loop's saved-id list is the accumulator followed
by the truthy ids of the processed records, in order. -/
theorem saveChaptersLoop_saved_eq (nowIso : String) (chs : List ChapDoc) :
    ∀ (table : List (Int × ChapDoc)) (saved : List Int)
      (table' : List (Int × ChapDoc)) (saved' : List Int),
      saveChaptersLoop nowIso table saved chs = .ok (table', saved') →
      saved' = saved ++ chs.filterMap chTruthyId := by
  induction chs with
  | nil =>
    intro table saved t' s' h
    simp only [saveChaptersLoop, Except.ok.injEq, Prod.mk.injEq] at h
    simp [← h.2]
  | cons ch rest ih =>
    intro table saved t' s' h
    cases hid : chTruthyId ch with
    | none =>
      simp only [saveChaptersLoop, hid] at h
      simpa [List.filterMap_cons, hid] using ih _ _ _ _ h
    | some cid =>
      simp only [saveChaptersLoop, hid] at h
      split at h
      · have := ih _ _ _ _ h
        simp [List.filterMap_cons, hid, this]
      · exact absurd h (by simp)

/-- The editing-pass loop's saved-id list. -/
theorem savePassesLoop_saved_eq (ps : List PassDoc) :
    ∀ (table : List (Int × PassDoc)) (saved : List Int),
      (savePassesLoop table saved ps).2 = saved ++ ps.filterMap passTruthyId := by
  induction ps with
  | nil => intro table saved; simp [savePassesLoop]
  | cons p rest ih =>
    intro table saved
    cases hid : passTruthyId p with
    | none => simp [savePassesLoop, hid, ih]
    | some pid => simp [savePassesLoop, hid, ih]

/-- The to-do loop's saved-id list. -/
theorem saveTodosLoop_saved_eq (ts : List TodoDoc) :
    ∀ (table : List (Int × TodoDoc)) (saved : List Int),
      (saveTodosLoop table saved ts).2 = saved ++ ts.filterMap todoTruthyId := by
  induction ts with
  | nil => intro table saved; simp [saveTodosLoop]
  | cons t rest ih =>
    intro table saved
    cases hid : todoTruthyId t with
    | none => simp [saveTodosLoop, hid, ih]
    | some tid => simp [saveTodosLoop, hid, ih]

/-- Every document surviving the delete-by-absence pass was stored and has
its doc_id among the saved ids. -/
theorem mem_removeAbsent {α : Type} {table : List (Int × α)} {saved : List Int}
    {p : Int × α} (h : p ∈ removeAbsent table saved) :
    p ∈ table ∧ p.1 ∈ saved := by
  unfold removeAbsent at h
  have h2 := List.mem_filter.mp h
  refine ⟨h2.1, ?_⟩
  by_contra hn
  have hmem : p.1 ∈ (table.map (fun q => q.1)).filter
      (fun i => !(saved.contains i)) := by
    refine List.mem_filter.mpr ⟨List.mem_map_of_mem _ h2.1, ?_⟩
    simp [hn]
  have := h2.2
  simp only [Bool.not_eq_true'] at this
  rw [List.contains_eq_any_beq] at this
  simp only [List.any_eq_false] at this
  exact this p.1 hmem (by simp)

/-- A truthy chapter id comes from a present, nonzero `id` field. -/
theorem chTruthyId_eq_some {c : ChapDoc} {i : Int}
    (h : chTruthyId c = some i) : c.id = some i ∧ i ≠ 0 := by
  unfold chTruthyId at h
  cases hc : c.id with
  | none => rw [hc] at h; cases h
  | some v =>
    rw [hc] at h
    by_cases hv : v = 0
    · simp [hv] at h
    · simp [hv] at h
      subst h
      exact ⟨rfl, hv⟩

/-- A truthy editing-pass id comes from a present, nonzero `id` field. -/
theorem passTruthyId_eq_some {p : PassDoc} {i : Int}
    (h : passTruthyId p = some i) : p.id = some i ∧ i ≠ 0 := by
  unfold passTruthyId at h
  cases hc : p.id with
  | none => rw [hc] at h; cases h
  | some v =>
    rw [hc] at h
    by_cases hv : v = 0
    · simp [hv] at h
    · simp [hv] at h
      subst h
      exact ⟨rfl, hv⟩

/-- A truthy to-do id comes from a present, nonzero `id` field. -/
theorem todoTruthyId_eq_some {t : TodoDoc} {i : Int}
    (h : todoTruthyId t = some i) : t.id = some i ∧ i ≠ 0 := by
  unfold todoTruthyId at h
  cases hc : t.id with
  | none => rw [hc] at h; cases h
  | some v =>
    rw [hc] at h
    by_cases hv : v = 0
    · simp [hv] at h
    · simp [hv] at h
      subst h
      exact ⟨rfl, hv⟩

/-- C10 (confirmed): `save_data` silently skips every supplied record whose
id is missing, `None` or 0 — saving a state is identical to saving its
restriction to truthy-id records, so a skipped record is neither inserted
nor updated, produces no error, and never receives a fresh identifier —
and on success the delete-by-absence pass leaves only stored records whose
doc_id was supplied as a truthy id in the corresponding collection. -/
theorem c10_falsy_ids_skipped :
    (∀ (store : Store) (st : AppState) (nowIso : String),
      save_data store st nowIso = save_data store (filterTruthy st) nowIso)
    ∧ (∀ (store : Store) (st : AppState) (nowIso : String) (store' : Store),
      save_data store st nowIso = Except.ok store' →
      (∀ p ∈ store'.chapters, ∃ ch ∈ st.chapters, ch.id = some p.1 ∧ p.1 ≠ 0)
      ∧ (∀ p ∈ store'.editing_passes,
          ∃ ep ∈ st.editing_passes, ep.id = some p.1 ∧ p.1 ≠ 0)
      ∧ (∀ p ∈ store'.todos, ∃ td ∈ st.todos, td.id = some p.1 ∧ p.1 ≠ 0)) := by
  constructor
  · intro store st nowIso
    unfold save_data save_chapters filterTruthy
    rw [← saveChaptersLoop_skip_falsy, ← savePassesLoop_skip_falsy,
      ← saveTodosLoop_skip_falsy]
  · intro store st nowIso store' h
    unfold save_data at h
    cases hc : save_chapters nowIso store.chapters st.chapters with
    | error e => rw [hc] at h; cases h
    | ok ctable =>
      rw [hc] at h
      simp only [Except.ok.injEq] at h
      subst h
      unfold save_chapters at hc
      cases hl : saveChaptersLoop nowIso store.chapters [] st.chapters with
      | error e => rw [hl] at hc; cases hc
      | ok pr =>
        obtain ⟨t2, sv⟩ := pr
        rw [hl] at hc
        simp only [Except.ok.injEq] at hc
        refine ⟨?_, ?_, ?_⟩
        · intro p hp
          have hp2 : p ∈ removeAbsent t2 sv := by rw [hc]; exact hp
          obtain ⟨-, hsaved⟩ := mem_removeAbsent hp2
          have hids := saveChaptersLoop_saved_eq nowIso st.chapters _ _ _ _ hl
          rw [hids, List.nil_append] at hsaved
          obtain ⟨ch, hch, hid⟩ := List.mem_filterMap.mp hsaved
          obtain ⟨hid', hnz⟩ := chTruthyId_eq_some hid
          exact ⟨ch, hch, hid', hnz⟩
        · intro p hp
          have hp2 : p ∈ removeAbsent (savePassesLoop store.editing_passes []
              st.editing_passes).1 (savePassesLoop store.editing_passes []
              st.editing_passes).2 := hp
          obtain ⟨-, hsaved⟩ := mem_removeAbsent hp2
          rw [savePassesLoop_saved_eq, List.nil_append] at hsaved
          obtain ⟨ep, hep, hid⟩ := List.mem_filterMap.mp hsaved
          obtain ⟨hid', hnz⟩ := passTruthyId_eq_some hid
          exact ⟨ep, hep, hid', hnz⟩
        · intro p hp
          have hp2 : p ∈ removeAbsent (saveTodosLoop store.todos []
              st.todos).1 (saveTodosLoop store.todos [] st.todos).2 := hp
          obtain ⟨-, hsaved⟩ := mem_removeAbsent hp2
          rw [saveTodosLoop_saved_eq, List.nil_append] at hsaved
          obtain ⟨td, htd, hid⟩ := List.mem_filterMap.mp hsaved
          obtain ⟨hid', hnz⟩ := todoTruthyId_eq_some hid
          exact ⟨td, htd, hid', hnz⟩

/-- The max-scan of `get_next_id` is at least its starting accumulator. -/
theorem le_maxScan {α : Type} (table : List (Int × α)) :
    ∀ (a : Int), a ≤ table.foldl (fun m p => if p.1 > m then p.1 else m) a := by
  induction table with
  | nil => intro a; exact le_refl a
  | cons x rest ih =>
    intro a
    rw [List.foldl_cons]
    refine le_trans ?_ (ih (if x.1 > a then x.1 else a))
    by_cases hx : x.1 > a
    · rw [if_pos hx]; exact le_of_lt hx
    · rw [if_neg hx]

/-- Every stored doc_id is bounded by the max-scan. -/
theorem mem_le_maxScan {α : Type} (table : List (Int × α)) :
    ∀ (a : Int) (p : Int × α), p ∈ table →
      p.1 ≤ table.foldl (fun m p => if p.1 > m then p.1 else m) a := by
  induction table with
  | nil => intro a p hp; cases hp
  | cons x rest ih =>
    intro a p hp
    rw [List.foldl_cons]
    rcases List.mem_cons.mp hp with rfl | hmem
    · refine le_trans ?_ (le_maxScan rest _)
      by_cases hx : p.1 > a
      · rw [if_pos hx]
      · rw [if_neg hx]; exact le_of_not_lt hx
    · exact ih _ p hmem

/-- Every stored doc_id is strictly below `get_next_id`. -/
theorem mem_lt_next_id {α : Type} {table : List (Int × α)} {p : Int × α}
    (hp : p ∈ table) : p.1 < get_next_id table := by
  unfold get_next_id
  have := mem_le_maxScan table 0 p hp
  omega

/-- The fresh id of `get_next_id` is never already stored. -/
theorem contains_next_id_false {α : Type} (table : List (Int × α)) :
    tableContains table (get_next_id table) = false := by
  unfold tableContains
  rw [List.any_eq_false]
  intro p hp
  have := mem_lt_next_id hp
  simp only [beq_iff_eq]
  omega

/-- The fresh id is at least 1. -/
theorem one_le_next_id {α : Type} (table : List (Int × α)) :
    1 ≤ get_next_id table := by
  unfold get_next_id
  have := le_maxScan table 0
  omega

/-- A contained doc_id is strictly below the fresh id. -/
theorem contains_lt_next_id {α : Type} {table : List (Int × α)} {i : Int}
    (h : tableContains table i = true) : i < get_next_id table := by
  unfold tableContains at h
  rw [List.any_eq_true] at h
  obtain ⟨p, hp, hpi⟩ := h
  rw [beq_iff_eq] at hpi
  rw [← hpi]
  exact mem_lt_next_id hp

/-- A doc_id absent from the table has no document. -/
theorem tableGet_eq_none {α : Type} {table : List (Int × α)} {i : Int}
    (h : tableContains table i = false) : tableGet table i = none := by
  unfold tableGet
  have hf : table.find? (fun p => p.1 == i) = none := by
    rw [List.find?_eq_none]
    intro p hp
    unfold tableContains at h
    rw [List.any_eq_false] at h
    simpa using h p hp
  rw [hf]
  rfl

/-- A doc_id with a document is contained. -/
theorem tableGet_isSome_contains {α : Type} {table : List (Int × α)} {i : Int}
    {x : α} (h : tableGet table i = some x) : tableContains table i = true := by
  by_contra hc
  rw [Bool.not_eq_true] at hc
  rw [tableGet_eq_none hc] at h
  cases h

/-- Appending a document with a different doc_id does not disturb a lookup. -/
theorem tableGet_append_ne {α : Type} (x : Int × α) (i : Int) (hne : x.1 ≠ i) :
    ∀ (table : List (Int × α)),
      tableGet (table ++ [x]) i = tableGet table i := by
  intro table
  unfold tableGet
  induction table with
  | nil =>
    rw [List.nil_append,
      @List.find?_cons_of_neg _ (fun p => p.1 == i) x [] (by simpa using hne)]
  | cons y rest ih =>
    rw [List.cons_append]
    by_cases hy : (y.1 == i) = true
    · rw [@List.find?_cons_of_pos _ (fun p => p.1 == i) y (rest ++ [x]) hy,
        @List.find?_cons_of_pos _ (fun p => p.1 == i) y rest hy]
    · rw [@List.find?_cons_of_neg _ (fun p => p.1 == i) y (rest ++ [x]) hy,
        @List.find?_cons_of_neg _ (fun p => p.1 == i) y rest hy]
      exact ih

/-- Looking up the doc_id of a freshly appended document finds it, provided
it was absent before. -/
theorem tableGet_append_self {α : Type} (x : Int × α) :
    ∀ (table : List (Int × α)), tableContains table x.1 = false →
      tableGet (table ++ [x]) x.1 = some x.2 := by
  intro table
  induction table with
  | nil =>
    intro _
    unfold tableGet
    rw [List.nil_append,
      @List.find?_cons_of_pos _ (fun p => p.1 == x.1) x [] (by simp)]
    rfl
  | cons y rest ih =>
    intro h
    unfold tableContains at h
    rw [List.any_cons, Bool.or_eq_false_iff] at h
    unfold tableGet
    rw [List.cons_append,
      @List.find?_cons_of_neg _ (fun p => p.1 == x.1) y (rest ++ [x])
        (by simp [h.1])]
    exact ih h.2

/-- Key-preserving write map: the written doc_id sees the merged doc. -/
theorem tableGet_mapWrite_self {α : Type} (f : α → α) (i : Int) :
    ∀ (table : List (Int × α)),
      tableGet (table.map (fun p => if p.1 == i then (p.1, f p.2) else p)) i
        = (tableGet table i).map f := by
  intro table
  unfold tableGet
  induction table with
  | nil => rfl
  | cons y rest ih =>
    rw [List.map_cons]
    by_cases hy : (y.1 == i) = true
    · rw [if_pos hy,
        @List.find?_cons_of_pos _ (fun p => p.1 == i) (y.1, f y.2)
          (rest.map (fun p => if p.1 == i then (p.1, f p.2) else p)) hy,
        @List.find?_cons_of_pos _ (fun p => p.1 == i) y rest hy]
      rfl
    · rw [if_neg hy,
        @List.find?_cons_of_neg _ (fun p => p.1 == i) y
          (rest.map (fun p => if p.1 == i then (p.1, f p.2) else p)) hy,
        @List.find?_cons_of_neg _ (fun p => p.1 == i) y rest hy]
      exact ih

/-- Key-preserving write map: other doc_ids are untouched. -/
theorem tableGet_mapWrite_ne {α : Type} (f : α → α) (i j : Int) (hne : j ≠ i) :
    ∀ (table : List (Int × α)),
      tableGet (table.map (fun p => if p.1 == i then (p.1, f p.2) else p)) j
        = tableGet table j := by
  intro table
  unfold tableGet
  induction table with
  | nil => rfl
  | cons y rest ih =>
    rw [List.map_cons]
    by_cases hyi : (y.1 == i) = true
    · have hyj : ((y.1 : Int) == j) = false := by
        rw [beq_iff_eq] at hyi
        rw [beq_eq_false_iff_ne, hyi]
        exact fun hij => hne hij.symm
      rw [if_pos hyi,
        @List.find?_cons_of_neg _ (fun p => p.1 == j) (y.1, f y.2)
          (rest.map (fun p => if p.1 == i then (p.1, f p.2) else p))
          (by simp [hyj]),
        @List.find?_cons_of_neg _ (fun p => p.1 == j) y rest (by simp [hyj])]
      exact ih
    · rw [if_neg hyi]
      by_cases hyj : (y.1 == j) = true
      · rw [@List.find?_cons_of_pos _ (fun p => p.1 == j) y
            (rest.map (fun p => if p.1 == i then (p.1, f p.2) else p)) hyj,
          @List.find?_cons_of_pos _ (fun p => p.1 == j) y rest hyj]
      · rw [@List.find?_cons_of_neg _ (fun p => p.1 == j) y
            (rest.map (fun p => if p.1 == i then (p.1, f p.2) else p)) hyj,
          @List.find?_cons_of_neg _ (fun p => p.1 == j) y rest hyj]
        exact ih

/-- Key-preserving write map keeps containment. -/
theorem tableContains_mapWrite {α : Type} (f : α → α) (table : List (Int × α))
    (i j : Int) :
    tableContains (table.map (fun p => if p.1 == i then (p.1, f p.2) else p)) j
      = tableContains table j := by
  unfold tableContains
  rw [List.any_map]
  congr 1
  funext p
  simp only [Function.comp_apply]
  by_cases hp : (p.1 == i) = true
  · rw [if_pos hp]
  · rw [if_neg hp]

/-- Key-preserving write map keeps the fresh id. -/
theorem next_id_mapWrite {α : Type} (f : α → α) (table : List (Int × α))
    (i : Int) :
    get_next_id (table.map (fun p => if p.1 == i then (p.1, f p.2) else p))
      = get_next_id table := by
  unfold get_next_id
  rw [List.foldl_map]
  congr 2
  funext m p
  by_cases hp : (p.1 == i) = true
  · rw [if_pos hp]
  · rw [if_neg hp]

/-- Containment after appending one document. -/
theorem tableContains_append {α : Type} (table : List (Int × α)) (x : Int × α)
    (j : Int) :
    tableContains (table ++ [x]) j = (tableContains table j || (x.1 == j)) := by
  unfold tableContains
  rw [List.any_append]
  simp

/-- TinyDB update at the written doc_id, specialized to `mergeDoc`. -/
theorem tableGet_writeMerge_self (c : ChapDoc) (i : Int)
    (table : List (Int × ChapDoc)) :
    tableGet (table.map (fun p => if p.1 == i then (p.1, mergeDoc p.2 c) else p)) i
      = (tableGet table i).map (fun ex => mergeDoc ex c) :=
  tableGet_mapWrite_self (fun d => mergeDoc d c) i table

/-- TinyDB update leaves other doc_ids alone, specialized to `mergeDoc`. -/
theorem tableGet_writeMerge_ne (c : ChapDoc) (i j : Int) (hne : j ≠ i)
    (table : List (Int × ChapDoc)) :
    tableGet (table.map (fun p => if p.1 == i then (p.1, mergeDoc p.2 c) else p)) j
      = tableGet table j :=
  tableGet_mapWrite_ne (fun d => mergeDoc d c) i j hne table

/-- TinyDB update keeps containment, specialized to `mergeDoc`. -/
theorem tableContains_writeMerge (c : ChapDoc) (table : List (Int × ChapDoc))
    (i j : Int) :
    tableContains
        (table.map (fun p => if p.1 == i then (p.1, mergeDoc p.2 c) else p)) j
      = tableContains table j :=
  tableContains_mapWrite (fun d => mergeDoc d c) table i j

/-- TinyDB update keeps the fresh id, specialized to `mergeDoc`. -/
theorem next_id_writeMerge (c : ChapDoc) (table : List (Int × ChapDoc))
    (i : Int) :
    get_next_id
        (table.map (fun p => if p.1 == i then (p.1, mergeDoc p.2 c) else p))
      = get_next_id table :=
  next_id_mapWrite (fun d => mergeDoc d c) table i

/-- Merging two serializable documents is serializable. -/
theorem docSerializable_merge {a b : ChapDoc} (ha : docSerializable a = true)
    (hb : docSerializable b = true) :
    docSerializable (mergeDoc a b) = true := by
  unfold docSerializable at ha hb ⊢
  rw [Bool.and_eq_true] at ha hb ⊢
  constructor
  · have : (mergeDoc a b).deadline = (b.deadline <|> a.deadline) := rfl
    rw [this]
    cases hbd : b.deadline with
    | none => simpa using ha.1
    | some v => rw [hbd] at hb; simpa using hb.1
  · have : (mergeDoc a b).deadline_obj = (b.deadline_obj <|> a.deadline_obj) := rfl
    rw [this]
    cases hbd : b.deadline_obj with
    | none => simpa using ha.2
    | some v => rw [hbd] at hb; simpa using hb.2

/-- Field projections of `normChapter`. -/
theorem normChapter_fields (nowIso : String) (ch : ChapDoc) :
    (normChapter nowIso ch).word_count = some (ch.word_count.getD 0)
    ∧ (normChapter nowIso ch).previous_word_count = ch.previous_word_count
    ∧ (normChapter nowIso ch).deadline_obj = ch.deadline_obj
    ∧ (match (normChapter nowIso ch).deadline with
        | some (.dateV _) => false
        | _ => true) = true := by
  unfold normChapter
  cases hd : ch.deadline with
  | none => dsimp only; split <;> simp [hd]
  | some v => cases v <;> (dsimp only; split <;> simp [hd])

/-- Field projections of `applyPrevWC`. -/
theorem applyPrevWC_fields (table : List (Int × ChapDoc)) (cid : Int)
    (c : ChapDoc) :
    (applyPrevWC table cid c).word_count = c.word_count
    ∧ (applyPrevWC table cid c).deadline = c.deadline
    ∧ (applyPrevWC table cid c).deadline_obj = c.deadline_obj := by
  unfold applyPrevWC
  cases hg : tableGet table cid with
  | none => simp
  | some ex => by_cases hw : ex.word_count ≠ c.word_count <;> simp [hw]

/-- The table lookup fully determines `applyPrevWC`. -/
theorem applyPrevWC_congr (t1 t2 : List (Int × ChapDoc)) (cid : Int)
    (c : ChapDoc) (h : tableGet t1 cid = tableGet t2 cid) :
    applyPrevWC t1 cid c = applyPrevWC t2 cid c := by
  unfold applyPrevWC
  rw [h]

/-- A contained doc_id has a document. -/
theorem tableContains_get {α : Type} {table : List (Int × α)} {i : Int}
    (h : tableContains table i = true) : ∃ x, tableGet table i = some x := by
  unfold tableContains at h
  unfold tableGet
  rw [List.any_eq_true] at h
  obtain ⟨p, hp, hpi⟩ := h
  have hs : (table.find? (fun q => q.1 == i)).isSome := by
    rw [List.find?_isSome]
    exact ⟨p, hp, hpi⟩
  obtain ⟨q, hq⟩ := Option.isSome_iff_exists.mp hs
  exact ⟨q.2, by rw [hq]; rfl⟩

/-- The processed document written by the save loop is serializable whenever
the incoming record carries no date object in its `deadline_obj` slot (the
deadline itself is serialized to a string by `normChapter`). -/
theorem docSerializable_processed (nowIso : String)
    (table : List (Int × ChapDoc)) (cid : Int) (ch : ChapDoc)
    (h : ch.deadline_obj = none ∨ ch.deadline_obj = some none) :
    docSerializable (applyPrevWC table cid (normChapter nowIso ch)) = true := by
  unfold docSerializable
  rw [Bool.and_eq_true]
  obtain ⟨-, -, hobj, hdl⟩ := normChapter_fields nowIso ch
  obtain ⟨-, hdl2, hobj2⟩ := applyPrevWC_fields table cid (normChapter nowIso ch)
  constructor
  · rw [hdl2]
    exact hdl
  · rw [hobj2, hobj]
    rcases h with h | h <;> rw [h]

/-- Writing a serializable document keeps the table serializable. -/
theorem tableSerializable_write {table : List (Int × ChapDoc)} {cid : Int}
    {c : ChapDoc} (hT : tableSerializable table = true)
    (hc : docSerializable c = true) :
    tableSerializable (writeChapter table cid c) = true := by
  unfold tableSerializable at hT ⊢
  unfold writeChapter
  rw [List.all_eq_true] at hT
  by_cases hcont : tableContains table cid = true
  · rw [if_pos hcont, List.all_eq_true]
    intro p hp
    obtain ⟨q, hq, rfl⟩ := List.mem_map.mp hp
    by_cases hqc : (q.1 == cid) = true
    · rw [if_pos hqc]
      exact docSerializable_merge (hT q hq) hc
    · rw [if_neg hqc]
      exact hT q hq
  · rw [if_neg hcont, List.all_append, Bool.and_eq_true, List.all_eq_true]
    exact ⟨fun p hp => hT p hp, by simpa using hc⟩

/-- Main characterization of the chapter save loop under the conditions the
reconcile pipeline establishes: the stored table is serializable, incoming
records carry no date object, every truthy incoming id is either stored or
the single fresh id, and the truthy ids are pairwise distinct.  Then the
loop succeeds, records exactly the truthy ids, stores for each record the
merged (or fresh) processed document, and leaves other doc_ids alone. -/
theorem saveChaptersLoop_main (nowIso : String) :
    ∀ (chs : List ChapDoc) (T : List (Int × ChapDoc)) (saved : List Int),
      tableSerializable T = true →
      (∀ ch ∈ chs, ch.deadline_obj = none ∨ ch.deadline_obj = some none) →
      (∀ ch ∈ chs, ∀ cid, chTruthyId ch = some cid →
        tableContains T cid = true ∨ cid = get_next_id T) →
      (chs.filterMap chTruthyId).Nodup →
      ∃ T', saveChaptersLoop nowIso T saved chs
          = .ok (T', saved ++ chs.filterMap chTruthyId)
        ∧ (∀ ch ∈ chs, ∀ cid, chTruthyId ch = some cid →
            tableGet T' cid
              = some (match tableGet T cid with
                  | some ex =>
                    mergeDoc ex (applyPrevWC T cid (normChapter nowIso ch))
                  | none => applyPrevWC T cid (normChapter nowIso ch)))
        ∧ (∀ j, (∀ ch ∈ chs, chTruthyId ch ≠ some j) →
            tableGet T' j = tableGet T j) := by
  intro chs
  induction chs with
  | nil =>
    intro T saved _ _ _ _
    exact ⟨T, by simp [saveChaptersLoop], by simp, fun j _ => rfl⟩
  | cons ch rest ih =>
    intro T saved hT hobj hids hnodup
    cases hid : chTruthyId ch with
    | none =>
      simp only [List.filterMap_cons, hid] at hnodup ⊢
      obtain ⟨T', h1, h2, h3⟩ := ih T saved hT
        (fun c hc => hobj c (List.mem_cons_of_mem _ hc))
        (fun c hc => hids c (List.mem_cons_of_mem _ hc)) hnodup
      refine ⟨T', ?_, ?_, ?_⟩
      · simp only [saveChaptersLoop, hid]
        exact h1
      · intro c hc cid hcid
        rcases List.mem_cons.mp hc with rfl | hmem
        · rw [hid] at hcid; cases hcid
        · exact h2 c hmem cid hcid
      · intro j hj
        exact h3 j (fun c hc => hj c (List.mem_cons_of_mem _ hc))
    | some cid =>
      simp only [List.filterMap_cons, hid] at hnodup
      rw [List.nodup_cons] at hnodup
      have hobjh := hobj ch (List.mem_cons_self _ _)
      have hch4 : docSerializable
          (applyPrevWC T cid (normChapter nowIso ch)) = true :=
        docSerializable_processed nowIso T cid ch hobjh
      have hT2 : tableSerializable
          (writeChapter T cid (applyPrevWC T cid (normChapter nowIso ch)))
            = true :=
        tableSerializable_write hT hch4
      have hget2 : ∀ j, j ≠ cid →
          tableGet (writeChapter T cid
              (applyPrevWC T cid (normChapter nowIso ch))) j
            = tableGet T j := by
        intro j hj
        unfold writeChapter
        by_cases hcont : tableContains T cid = true
        · rw [if_pos hcont]
          exact tableGet_writeMerge_ne _ cid j hj T
        · rw [if_neg hcont]
          rcases hids ch (List.mem_cons_self _ _) cid hid with hc | hnid
          · rw [hc] at hcont; cases hcont rfl
          · refine tableGet_append_ne _ j ?_ T
            show get_next_id T ≠ j
            rw [← hnid]
            exact fun he => hj he.symm
      have hrestids : ∀ c ∈ rest, ∀ cid2, chTruthyId c = some cid2 →
          tableContains (writeChapter T cid
              (applyPrevWC T cid (normChapter nowIso ch))) cid2 = true
            ∨ cid2 = get_next_id (writeChapter T cid
                (applyPrevWC T cid (normChapter nowIso ch))) := by
        intro c hc cid2 hcid2
        have hne : cid2 ≠ cid := by
          intro he
          exact hnodup.1 (he ▸ List.mem_filterMap.mpr ⟨c, hc, hcid2⟩)
        rcases hids c (List.mem_cons_of_mem _ hc) cid2 hcid2 with hc2 | hnid2
        · left
          unfold writeChapter
          by_cases hcont : tableContains T cid = true
          · rw [if_pos hcont, tableContains_writeMerge]
            exact hc2
          · rw [if_neg hcont, tableContains_append, hc2]
            rfl
        · unfold writeChapter
          by_cases hcont : tableContains T cid = true
          · right
            rw [if_pos hcont, next_id_writeMerge]
            exact hnid2
          · rcases hids ch (List.mem_cons_self _ _) cid hid with hcc | hnn
            · rw [hcc] at hcont; cases hcont rfl
            · exact absurd (hnid2.trans hnn.symm) hne
      obtain ⟨T', h1, h2, h3⟩ := ih
        (writeChapter T cid (applyPrevWC T cid (normChapter nowIso ch)))
        (saved ++ [cid]) hT2
        (fun c hc => hobj c (List.mem_cons_of_mem _ hc)) hrestids hnodup.2
      have hrestne : ∀ c ∈ rest, chTruthyId c ≠ some cid := by
        intro c hc he
        exact hnodup.1 (List.mem_filterMap.mpr ⟨c, hc, he⟩)
      refine ⟨T', ?_, ?_, ?_⟩
      · simp only [saveChaptersLoop, hid]
        have hT2b : ((writeChapter T cid
            (applyPrevWC T cid (normChapter nowIso ch))).all
              (fun p => docSerializable p.2)) = true := hT2
        rw [if_pos hT2b, h1]
        simp [List.filterMap_cons, hid]
      · intro c hc cid2 hcid2
        rcases List.mem_cons.mp hc with rfl | hmem
        · rw [hid] at hcid2
          cases hcid2
          rw [h3 cid hrestne]
          unfold writeChapter
          by_cases hcont : tableContains T cid = true
          · rw [if_pos hcont]
            obtain ⟨ex, hex⟩ := tableContains_get hcont
            rw [tableGet_writeMerge_self, hex]
            rfl
          · rw [if_neg hcont]
            rcases hids c (List.mem_cons_self _ _) cid hid with hcc | hnid
            · rw [hcc] at hcont; cases hcont rfl
            · have hcf : tableContains T cid = false := by
                simpa using hcont
              rw [tableGet_eq_none hcf, hnid]
              exact tableGet_append_self (get_next_id T,
                applyPrevWC T (get_next_id T) (normChapter nowIso c)) T
                (contains_next_id_false T)
        · have h2c := h2 c hmem cid2 hcid2
          have hne : cid2 ≠ cid := by
            intro he
            exact hnodup.1 (he ▸ List.mem_filterMap.mpr ⟨c, hmem, hcid2⟩)
          have hcg : applyPrevWC (writeChapter T cid
                (applyPrevWC T cid (normChapter nowIso ch))) cid2
                (normChapter nowIso c)
              = applyPrevWC T cid2 (normChapter nowIso c) :=
            applyPrevWC_congr _ _ _ _ (hget2 cid2 hne)
          rw [hget2 cid2 hne, hcg] at h2c
          exact h2c
      · intro j hj
        have hjcid : cid ≠ j := by
          intro he
          exact hj ch (List.mem_cons_self _ _) (he ▸ hid)
        rw [h3 j (fun c hc => hj c (List.mem_cons_of_mem _ hc))]
        exact hget2 j (fun he => hjcid he.symm)

/-- Kept entries of a key-filter still resolve to the same document. -/
theorem find?_filter_keep {α : Type} (keep : Int → Bool) (i : Int)
    (hk : keep i = true) :
    ∀ (table : List (Int × α)),
      (table.filter (fun p => keep p.1)).find? (fun p => p.1 == i)
        = table.find? (fun p => p.1 == i) := by
  intro table
  induction table with
  | nil => rfl
  | cons y rest ih =>
    rw [List.filter_cons]
    by_cases hyi : (y.1 == i) = true
    · have hky : keep y.1 = true := by
        rw [beq_iff_eq] at hyi
        rw [hyi, hk]
      rw [if_pos hky,
        @List.find?_cons_of_pos _ (fun p => p.1 == i) y
          (rest.filter (fun p => keep p.1)) hyi,
        @List.find?_cons_of_pos _ (fun p => p.1 == i) y rest hyi]
    · by_cases hky : keep y.1 = true
      · rw [if_pos hky,
          @List.find?_cons_of_neg _ (fun p => p.1 == i) y
            (rest.filter (fun p => keep p.1)) hyi,
          @List.find?_cons_of_neg _ (fun p => p.1 == i) y rest hyi]
        exact ih
      · rw [if_neg hky,
          @List.find?_cons_of_neg _ (fun p => p.1 == i) y rest hyi]
        exact ih

/-- A saved doc_id still resolves to the same document after the
delete-by-absence pass. -/
theorem tableGet_removeAbsent {α : Type} (table : List (Int × α))
    (saved : List Int) (i : Int) (h : i ∈ saved) :
    tableGet (removeAbsent table saved) i = tableGet table i := by
  unfold removeAbsent tableGet
  have hk : (!(((table.map (fun p => p.1)).filter
      (fun k => !(saved.contains k))).contains i)) = true := by
    rw [Bool.not_eq_true']
    by_contra hcc
    rw [Bool.not_eq_false] at hcc
    have hmem : i ∈ (table.map (fun p => p.1)).filter
        (fun k => !(saved.contains k)) := by simpa using hcc
    rw [List.mem_filter] at hmem
    have : i ∉ saved := by simpa using hmem.2
    exact this h
  rw [find?_filter_keep
    (fun k => !(((table.map (fun p => p.1)).filter
      (fun j => !(saved.contains j))).contains k)) i (by simpa using hk) table]

/-- Inversion of a successful session-chapter match (line 575). -/
theorem findOriginal_eq_some {chs : List ChapDoc} {rid : Option Int}
    {orig : ChapDoc} (h : findOriginal chs rid = some orig) :
    orig ∈ chs ∧ ∃ v, rid = some v ∧ orig.id = some v := by
  unfold findOriginal at h
  cases rid with
  | none => cases h
  | some v =>
    have hm := List.mem_of_find?_eq_some h
    have hp := List.find?_some h
    rw [beq_iff_eq] at hp
    exact ⟨hm, v, rfl, hp⟩

/-- What `steadyState` yields for a matched original chapter. -/
theorem steady_facts {T : List (Int × ChapDoc)} {chs : List ChapDoc}
    (hsteady : steadyState T chs) {orig : ChapDoc} {v : Int}
    (hm : orig ∈ chs) (hov : orig.id = some v) :
    0 < v ∧ tableContains T v = true
    ∧ (∃ ex, tableGet T v = some ex ∧ ex.word_count = orig.word_count
        ∧ ex.previous_word_count = orig.previous_word_count)
    ∧ orig.previous_word_count.isSome := by
  have h := hsteady orig hm
  rw [hov] at h
  simp only [Option.getD_some, Option.isSome_some] at h
  obtain ⟨-, h1, h2, h3, h4, h5⟩ := h
  obtain ⟨ex, hex⟩ := Option.isSome_iff_exists.mp h2
  rw [hex] at h3 h4
  simp only [Option.getD_some] at h3 h4
  exact ⟨h1, tableGet_isSome_contains hex, ⟨ex, hex, h3, h4⟩, h5⟩

/-- Field projections of a matched reconciled row (lines 574-612). -/
theorem reconcileRow_matched (T : List (Int × ChapDoc)) (chs : List ChapDoc)
    (nowIso : String) (r : EditedRow) (orig : ChapDoc)
    (h : findOriginal chs r._id = some orig) :
    ∃ v, r._id = some v ∧ orig.id = some v
      ∧ (reconcileRow T chs nowIso r).id = some v
      ∧ (reconcileRow T chs nowIso r).word_count = some (r.WordCount.getD 0)
      ∧ (reconcileRow T chs nowIso r).previous_word_count
          = some (orig.previous_word_count.getD (orig.word_count.getD 0))
      ∧ (reconcileRow T chs nowIso r).deadline_obj = orig.deadline_obj := by
  obtain ⟨hm, v, hv, hov⟩ := findOriginal_eq_some h
  rw [hv] at h
  refine ⟨v, hv, hov, ?_, ?_, ?_, ?_⟩ <;>
    simp [reconcileRow, h, mergeDoc, mapRow, hv]

/-- Field projections of a new reconciled row (lines 614-619). -/
theorem reconcileRow_new (T : List (Int × ChapDoc)) (chs : List ChapDoc)
    (nowIso : String) (r : EditedRow)
    (h : findOriginal chs r._id = none) :
    (reconcileRow T chs nowIso r).id = some (get_next_id T)
    ∧ (reconcileRow T chs nowIso r).previous_word_count = some 0
    ∧ (reconcileRow T chs nowIso r).deadline_obj = none := by
  refine ⟨?_, ?_, ?_⟩ <;> simp [reconcileRow, h, mapRow]

/-- The truthy id of a reconciled row: the matched session id (positive and
stored, by steady state) or the single fresh id. -/
theorem reconcileRow_truthyId (T : List (Int × ChapDoc)) (chs : List ChapDoc)
    (nowIso : String) (r : EditedRow) (hsteady : steadyState T chs) :
    (∃ orig v, findOriginal chs r._id = some orig ∧ r._id = some v
      ∧ chTruthyId (reconcileRow T chs nowIso r) = some v
      ∧ tableContains T v = true)
    ∨ (findOriginal chs r._id = none
      ∧ chTruthyId (reconcileRow T chs nowIso r) = some (get_next_id T)) := by
  cases hf : findOriginal chs r._id with
  | some orig =>
    left
    obtain ⟨v, hv, hov, hid, -, -, -⟩ :=
      reconcileRow_matched T chs nowIso r orig hf
    have hm := (findOriginal_eq_some hf).1
    obtain ⟨hpos, hcont, -, -⟩ := steady_facts hsteady hm hov
    refine ⟨orig, v, rfl, hv, ?_, hcont⟩
    unfold chTruthyId
    rw [hid]
    have hvne : ¬ v = 0 := by omega
    simp [hvne]
  | none =>
    right
    obtain ⟨hid, -, -⟩ := reconcileRow_new T chs nowIso r hf
    have hge := one_le_next_id T
    refine ⟨rfl, ?_⟩
    unfold chTruthyId
    rw [hid]
    have hne : ¬ get_next_id T = 0 := by omega
    simp [hne]

/-- The deadline-object slot of a reconciled row stays serializable if the
session chapters carry no parsed date. -/
theorem reconcileRow_obj (T : List (Int × ChapDoc)) (chs : List ChapDoc)
    (nowIso : String) (r : EditedRow)
    (hobj : ∀ c ∈ chs, c.deadline_obj = none ∨ c.deadline_obj = some none) :
    (reconcileRow T chs nowIso r).deadline_obj = none
    ∨ (reconcileRow T chs nowIso r).deadline_obj = some none := by
  cases hf : findOriginal chs r._id with
  | some orig =>
    obtain ⟨-, -, -, -, -, -, hdo⟩ := reconcileRow_matched T chs nowIso r orig hf
    rw [hdo]
    exact hobj orig (findOriginal_eq_some hf).1
  | none =>
    obtain ⟨-, -, hdo⟩ := reconcileRow_new T chs nowIso r hf
    rw [hdo]
    exact Or.inl rfl

/-- Every matched hidden id of the edited snapshot is stored, under the
steady state. -/
theorem matchedIds_contains (T : List (Int × ChapDoc)) (chs : List ChapDoc)
    (hsteady : steadyState T chs) :
    ∀ (rows : List EditedRow), ∀ i ∈ matchedIds chs rows,
      tableContains T i = true := by
  intro rows
  induction rows with
  | nil => intro i hi; cases hi
  | cons r rest ih =>
    intro i hi
    unfold matchedIds at hi
    rw [List.filterMap_cons] at hi
    cases hf : findOriginal chs r._id with
    | none => rw [hf] at hi; exact ih i hi
    | some orig =>
      rw [hf] at hi
      obtain ⟨hm, v, hv, hov⟩ := findOriginal_eq_some hf
      rw [hv] at hi
      rcases List.mem_cons.mp hi with rfl | hmem
      · exact (steady_facts hsteady hm hov).2.1
      · exact ih i hmem

/-- Identifier discipline of the reconcile pass: under the steady state,
with pairwise-distinct matched ids and at most one new row, the reconciled
rows carry pairwise-distinct truthy ids, each either a stored id or the one
fresh id, and every reconciled row has a truthy id. -/
theorem reconcile_ids_ok (T : List (Int × ChapDoc)) (chs : List ChapDoc)
    (nowIso : String) (hsteady : steadyState T chs) :
    ∀ (rows : List EditedRow), (matchedIds chs rows).Nodup →
      (newRows chs rows).length ≤ 1 →
      ((reconcileChapters T chs nowIso rows).filterMap chTruthyId).Nodup
      ∧ (∀ i ∈ (reconcileChapters T chs nowIso rows).filterMap chTruthyId,
          i ∈ matchedIds chs rows ∨ i = get_next_id T)
      ∧ ((newRows chs rows).length = 0 →
          ∀ i ∈ (reconcileChapters T chs nowIso rows).filterMap chTruthyId,
            i ∈ matchedIds chs rows)
      ∧ (∀ c ∈ reconcileChapters T chs nowIso rows, (chTruthyId c).isSome) := by
  intro rows
  induction rows with
  | nil =>
    intro _ _
    refine ⟨List.nodup_nil, ?_, ?_, ?_⟩ <;> simp [reconcileChapters]
  | cons r rest ih =>
    intro hnd hone
    rcases reconcileRow_truthyId T chs nowIso r hsteady with
      ⟨orig, v, hf, hv, htid, hcont⟩ | ⟨hf, htid⟩
    · have hmi : matchedIds chs (r :: rest) = v :: matchedIds chs rest := by
        unfold matchedIds
        rw [List.filterMap_cons, hf, hv]
      have hnr : newRows chs (r :: rest) = newRows chs rest := by
        unfold newRows
        rw [List.filter_cons, hf]
        simp
      rw [hmi] at hnd
      rw [List.nodup_cons] at hnd
      rw [hnr] at hone
      obtain ⟨ih1, ih2, ih3, ih4⟩ := ih hnd.2 hone
      have hlist : (reconcileChapters T chs nowIso (r :: rest)).filterMap
            chTruthyId
          = v :: (reconcileChapters T chs nowIso rest).filterMap chTruthyId := by
        unfold reconcileChapters
        rw [List.map_cons, List.filterMap_cons, htid]
      refine ⟨?_, ?_, ?_, ?_⟩
      · rw [hlist, List.nodup_cons]
        refine ⟨?_, ih1⟩
        intro hvmem
        rcases ih2 v hvmem with hmm | hnn
        · exact hnd.1 hmm
        · have := contains_lt_next_id hcont
          omega
      · intro i hi
        rw [hlist] at hi
        rcases List.mem_cons.mp hi with rfl | hmem
        · left; rw [hmi]; exact List.mem_cons_self _ _
        · rcases ih2 i hmem with hmm | hnn
          · left; rw [hmi]; exact List.mem_cons_of_mem _ hmm
          · right; exact hnn
      · intro h0 i hi
        rw [hlist] at hi
        rw [hnr] at h0
        rcases List.mem_cons.mp hi with rfl | hmem
        · rw [hmi]; exact List.mem_cons_self _ _
        · rw [hmi]; exact List.mem_cons_of_mem _ (ih3 h0 i hmem)
      · intro c hc
        unfold reconcileChapters at hc
        rw [List.map_cons] at hc
        rcases List.mem_cons.mp hc with rfl | hmem
        · rw [htid]; rfl
        · exact ih4 c hmem
    · have hmi : matchedIds chs (r :: rest) = matchedIds chs rest := by
        unfold matchedIds
        rw [List.filterMap_cons, hf]
      have hnr : newRows chs (r :: rest) = r :: newRows chs rest := by
        unfold newRows
        rw [List.filter_cons, hf]
        simp
      rw [hmi] at hnd
      rw [hnr] at hone
      simp only [List.length_cons] at hone
      have hzero : (newRows chs rest).length = 0 := by omega
      obtain ⟨ih1, ih2, ih3, ih4⟩ := ih hnd (by omega)
      have hlist : (reconcileChapters T chs nowIso (r :: rest)).filterMap
            chTruthyId
          = get_next_id T
            :: (reconcileChapters T chs nowIso rest).filterMap chTruthyId := by
        unfold reconcileChapters
        rw [List.map_cons, List.filterMap_cons, htid]
      refine ⟨?_, ?_, ?_, ?_⟩
      · rw [hlist, List.nodup_cons]
        refine ⟨?_, ih1⟩
        intro hmem
        have hmm := ih3 hzero _ hmem
        have hcc := matchedIds_contains T chs hsteady rest _ hmm
        have := contains_lt_next_id hcc
        omega
      · intro i hi
        rw [hlist] at hi
        rcases List.mem_cons.mp hi with rfl | hmem
        · right; rfl
        · rcases ih2 i hmem with hmm | hnn
          · left; rw [hmi]; exact hmm
          · right; exact hnn
      · intro h0
        rw [hnr] at h0
        simp at h0
      · intro c hc
        unfold reconcileChapters at hc
        rw [List.map_cons] at hc
        rcases List.mem_cons.mp hc with rfl | hmem
        · rw [htid]; rfl
        · exact ih4 c hmem

/-- Previous-word-count arithmetic of the saved merged document: shifted to
the stored word count exactly when the incoming word count differs from it,
otherwise the carried-forward value survives. -/
theorem saved_matched_pwc (nowIso : String) (T : List (Int × ChapDoc))
    (v : Int) (ex : ChapDoc) (row : ChapDoc) (w : Int) (p0 : Int)
    (hex : tableGet T v = some ex)
    (hwc : row.word_count = some w)
    (hpwc : row.previous_word_count = some p0) :
    (mergeDoc ex (applyPrevWC T v (normChapter nowIso row))).previous_word_count
      = if ex.word_count = some w then some p0
        else some (ex.word_count.getD 0) := by
  obtain ⟨hnwc, hnpwc, -, -⟩ := normChapter_fields nowIso row
  rw [hwc] at hnwc
  simp only [Option.getD_some] at hnwc
  rw [hpwc] at hnpwc
  unfold applyPrevWC
  rw [hex]
  dsimp only
  by_cases hcase : ex.word_count = some w
  · rw [if_pos hcase,
      if_neg (show ¬ ex.word_count ≠ (normChapter nowIso row).word_count by
        rw [hnwc]; exact fun h => h hcase)]
    have hproj : (mergeDoc ex (normChapter nowIso row)).previous_word_count
        = ((normChapter nowIso row).previous_word_count
            <|> ex.previous_word_count) := rfl
    rw [hproj, hnpwc]
    rfl
  · rw [if_neg hcase,
      if_pos (show ex.word_count ≠ (normChapter nowIso row).word_count by
        rw [hnwc]; exact hcase)]
    rfl

/-- C1 (counterexample): the claim fails for a save whose edited snapshot
contains two new rows.  Both rows are new (no hidden id), both receive the
same fresh identifier 2 (the C4 collision), so the save inserts the first
at doc_id 2 and then treats the second as an update of it: lines 153-156
find the first row as the "existing" chapter with a differing word count
and set `previous_word_count` to its word count, 100 — not 0.  The save
succeeds and the surviving new chapter's previous_word_count is 100. -/
theorem c1_new_row_pwc_counterexample :
    ((newRow "NewA" 100)._id = none ∧ (newRow "NewB" 250)._id = none)
    ∧ (save_chapters "2025-05-01T09:00:00" store1.chapters
        (reconcileChapters store1.chapters (load_data store1).chapters
          "2025-05-01T09:00:00"
          [newRow "NewA" 100, newRow "NewB" 250])).toOption.map
        (fun T2 => T2.map (fun p => (p.1, p.2.previous_word_count)))
      = some [(2, some 100)]
    ∧ some (100 : Int) ≠ some (0 : Int) :=
  ⟨⟨rfl, rfl⟩, rfl, by decide⟩

/-- C1 (amended): for every save of a reconciled chapters collection (the
only way the app saves chapters), run from the steady state in which the
session collection mirrors the store, with no parsed date objects in the
session (otherwise the save raises, see the C2 analysis), and with at most
one new row in the edited snapshot (with two or more, the C4 identifier
collision makes a later new row overwrite an earlier one and its saved
previous_word_count is the earlier row's word count, not 0 — see the C1
counterexample): a saved chapter's previous_word_count changes only if the
incoming word count differs from the stored word count in that same save;
when they differ it becomes the stored pre-change word count, when only
other fields (title, status, priority, deadline) change it keeps the
stored previous value, and a chapter new in this save gets
previous_word_count 0. -/
theorem c1_previous_word_count (T : List (Int × ChapDoc)) (chs : List ChapDoc)
    (rows : List EditedRow) (nowIso : String)
    (hsteady : steadyState T chs)
    (hobj : ∀ c ∈ chs, c.deadline_obj = none ∨ c.deadline_obj = some none)
    (hTser : tableSerializable T = true)
    (hnd : (matchedIds chs rows).Nodup)
    (hone : (newRows chs rows).length ≤ 1) :
    ∃ T', save_chapters nowIso T (reconcileChapters T chs nowIso rows)
        = .ok T'
      ∧ (∀ r ∈ rows, ∀ orig, findOriginal chs r._id = some orig →
          ∀ v, orig.id = some v →
          ∃ ex d', tableGet T v = some ex ∧ tableGet T' v = some d'
            ∧ d'.previous_word_count
              = (if ex.word_count = some (r.WordCount.getD 0)
                  then ex.previous_word_count
                  else some (ex.word_count.getD 0)))
      ∧ (∀ r ∈ rows, findOriginal chs r._id = none →
          ∃ d', tableGet T' (get_next_id T) = some d'
            ∧ d'.previous_word_count = some 0) := by
  obtain ⟨hnd', hids', -, -⟩ := reconcile_ids_ok T chs nowIso hsteady rows hnd hone
  have hids2 : ∀ c ∈ reconcileChapters T chs nowIso rows, ∀ cid,
      chTruthyId c = some cid →
      tableContains T cid = true ∨ cid = get_next_id T := by
    intro c hc cid hcid
    rcases hids' cid (List.mem_filterMap.mpr ⟨c, hc, hcid⟩) with hmm | hnn
    · exact Or.inl (matchedIds_contains T chs hsteady rows cid hmm)
    · exact Or.inr hnn
  have hobj2 : ∀ c ∈ reconcileChapters T chs nowIso rows,
      c.deadline_obj = none ∨ c.deadline_obj = some none := by
    intro c hc
    obtain ⟨r, hr, rfl⟩ := List.mem_map.mp hc
    exact reconcileRow_obj T chs nowIso r hobj
  obtain ⟨T2, hloop, hget, -⟩ := saveChaptersLoop_main nowIso
    (reconcileChapters T chs nowIso rows) T [] hTser hobj2 hids2 hnd'
  refine ⟨removeAbsent T2
    ([] ++ (reconcileChapters T chs nowIso rows).filterMap chTruthyId),
    ?_, ?_, ?_⟩
  · unfold save_chapters
    rw [hloop]
  · intro r hr orig hf v hov
    obtain ⟨v', hv', hov', hid', hwc', hpwc', -⟩ :=
      reconcileRow_matched T chs nowIso r orig hf
    have hvv : v' = v := by
      rw [hov] at hov'
      exact (Option.some.inj hov').symm
    subst hvv
    have hmem : reconcileRow T chs nowIso r
        ∈ reconcileChapters T chs nowIso rows :=
      List.mem_map_of_mem _ hr
    obtain ⟨hpos, hcont, ⟨ex, hex, hexwc, hexpwc⟩, hpwcsome⟩ :=
      steady_facts hsteady (findOriginal_eq_some hf).1 hov'
    have htid : chTruthyId (reconcileRow T chs nowIso r) = some v' := by
      unfold chTruthyId
      rw [hid']
      have hvne : ¬ v' = 0 := by omega
      simp [hvne]
    have hg := hget _ hmem v' htid
    rw [hex] at hg
    have hvsaved : v' ∈ [] ++ (reconcileChapters T chs nowIso rows).filterMap
        chTruthyId := by
      rw [List.nil_append]
      exact List.mem_filterMap.mpr ⟨_, hmem, htid⟩
    obtain ⟨p, hp⟩ := Option.isSome_iff_exists.mp hpwcsome
    have hp0 := saved_matched_pwc nowIso T v' ex (reconcileRow T chs nowIso r)
      (r.WordCount.getD 0) (orig.previous_word_count.getD
        (orig.word_count.getD 0)) hex hwc' hpwc'
    have hgd : orig.previous_word_count.getD (orig.word_count.getD 0) = p := by
      rw [hp]
      rfl
    rw [hgd] at hp0
    have hexp : ex.previous_word_count = some p := by rw [hexpwc, hp]
    refine ⟨ex, mergeDoc ex (applyPrevWC T v'
      (normChapter nowIso (reconcileRow T chs nowIso r))), hex, ?_, ?_⟩
    · rw [tableGet_removeAbsent T2 _ v' hvsaved]
      exact hg
    · rw [hp0, hexp]
  · intro r hr hf
    obtain ⟨hid', hpwc0, -⟩ := reconcileRow_new T chs nowIso r hf
    have hmem : reconcileRow T chs nowIso r
        ∈ reconcileChapters T chs nowIso rows :=
      List.mem_map_of_mem _ hr
    have hge := one_le_next_id T
    have htid : chTruthyId (reconcileRow T chs nowIso r)
        = some (get_next_id T) := by
      unfold chTruthyId
      rw [hid']
      have hne : ¬ get_next_id T = 0 := by omega
      simp [hne]
    have hg := hget _ hmem (get_next_id T) htid
    have hnone : tableGet T (get_next_id T) = none :=
      tableGet_eq_none (contains_next_id_false T)
    rw [hnone] at hg
    have hsavedmem : get_next_id T ∈ [] ++ (reconcileChapters T chs nowIso
        rows).filterMap chTruthyId := by
      rw [List.nil_append]
      exact List.mem_filterMap.mpr ⟨_, hmem, htid⟩
    refine ⟨applyPrevWC T (get_next_id T)
      (normChapter nowIso (reconcileRow T chs nowIso r)), ?_, ?_⟩
    · rw [tableGet_removeAbsent T2 _ _ hsavedmem]
      exact hg
    · show (applyPrevWC T (get_next_id T)
        (normChapter nowIso (reconcileRow T chs nowIso r))).previous_word_count
          = some 0
      unfold applyPrevWC
      rw [hnone]

/-- Witness for C1: the {1,2,3} store with a word-count change on chapter 1
(1000 to 1500), a title-only change on chapter 2, and one new row. -/
theorem c1_previous_word_count_witness :
    steadyState store123.chapters (load_data store123).chapters
    ∧ (matchedIds (load_data store123).chapters
        [plainRow 1 "Alpha" 1500, plainRow 2 "BetaRenamed" 2000,
          newRow "Delta" 0]).Nodup
    ∧ (newRows (load_data store123).chapters
        [plainRow 1 "Alpha" 1500, plainRow 2 "BetaRenamed" 2000,
          newRow "Delta" 0]).length ≤ 1
    ∧ ∃ T', save_chapters "2025-05-01T09:00:00" store123.chapters
          (reconcileChapters store123.chapters (load_data store123).chapters
            "2025-05-01T09:00:00"
            [plainRow 1 "Alpha" 1500, plainRow 2 "BetaRenamed" 2000,
              newRow "Delta" 0]) = .ok T'
        ∧ (∀ r ∈ [plainRow 1 "Alpha" 1500, plainRow 2 "BetaRenamed" 2000,
              newRow "Delta" 0], ∀ orig,
            findOriginal (load_data store123).chapters r._id = some orig →
            ∀ v, orig.id = some v →
            ∃ ex d', tableGet store123.chapters v = some ex
              ∧ tableGet T' v = some d'
              ∧ d'.previous_word_count
                = (if ex.word_count = some (r.WordCount.getD 0)
                    then ex.previous_word_count
                    else some (ex.word_count.getD 0)))
        ∧ (∀ r ∈ [plainRow 1 "Alpha" 1500, plainRow 2 "BetaRenamed" 2000,
              newRow "Delta" 0],
            findOriginal (load_data store123).chapters r._id = none →
            ∃ d', tableGet T' (get_next_id store123.chapters) = some d'
              ∧ d'.previous_word_count = some 0) :=
  ⟨by unfold steadyState; decide, by decide, by decide,
    c1_previous_word_count store123.chapters (load_data store123).chapters
      [plainRow 1 "Alpha" 1500, plainRow 2 "BetaRenamed" 2000,
        newRow "Delta" 0] "2025-05-01T09:00:00"
      (by unfold steadyState; decide) (by decide) (by decide) (by decide)
      (by decide)⟩

/-- C4 (counterexample): an edited snapshot with two freshly added rows
reconciles to two records carrying the same identifier `get_next_id` = 2:
the returned collection does not assign pairwise-distinct identifiers. -/
theorem c4_duplicate_ids_counterexample :
    (reconcileChapters store1.chapters (load_data store1).chapters
        "2025-05-01T09:00:00" [newRow "NewA" 0, newRow "NewB" 0]).map
        (fun c => c.id) = [some 2, some 2]
    ∧ ¬ ((reconcileChapters store1.chapters (load_data store1).chapters
        "2025-05-01T09:00:00" [newRow "NewA" 0, newRow "NewB" 0]).filterMap
          chTruthyId).Nodup :=
  ⟨rfl, by decide⟩

/-- C4 (amended): a reconciliation run from the steady state assigns
pairwise-distinct truthy identifiers to its records provided the edited
snapshot contains at most one new (unmatched) row; with two or more new
rows every new row receives the same fresh identifier, because
`get_next_id` is evaluated against the unchanged stored table for each. -/
theorem c4_distinct_identifiers (T : List (Int × ChapDoc))
    (chs : List ChapDoc) (rows : List EditedRow) (nowIso : String)
    (hsteady : steadyState T chs)
    (hnd : (matchedIds chs rows).Nodup)
    (hone : (newRows chs rows).length ≤ 1) :
    ((reconcileChapters T chs nowIso rows).filterMap chTruthyId).Nodup
    ∧ ∀ c ∈ reconcileChapters T chs nowIso rows, (chTruthyId c).isSome := by
  obtain ⟨h1, -, -, h4⟩ := reconcile_ids_ok T chs nowIso hsteady rows hnd hone
  exact ⟨h1, h4⟩

/-- Witness for C4: the {1,2,3} store with two kept rows and one new row
reconciles to records with distinct present identifiers. -/
theorem c4_distinct_identifiers_witness :
    steadyState store123.chapters (load_data store123).chapters
    ∧ (matchedIds (load_data store123).chapters
        [plainRow 1 "Alpha" 1000, plainRow 2 "Beta" 2000,
          newRow "Delta" 0]).Nodup
    ∧ (newRows (load_data store123).chapters
        [plainRow 1 "Alpha" 1000, plainRow 2 "Beta" 2000,
          newRow "Delta" 0]).length ≤ 1
    ∧ (((reconcileChapters store123.chapters (load_data store123).chapters
          "2025-05-01T09:00:00"
          [plainRow 1 "Alpha" 1000, plainRow 2 "Beta" 2000,
            newRow "Delta" 0]).filterMap chTruthyId).Nodup
      ∧ ∀ c ∈ reconcileChapters store123.chapters
            (load_data store123).chapters "2025-05-01T09:00:00"
            [plainRow 1 "Alpha" 1000, plainRow 2 "Beta" 2000,
              newRow "Delta" 0], (chTruthyId c).isSome) :=
  ⟨by unfold steadyState; decide, by decide, by decide,
    c4_distinct_identifiers store123.chapters (load_data store123).chapters
      [plainRow 1 "Alpha" 1000, plainRow 2 "Beta" 2000, newRow "Delta" 0]
      "2025-05-01T09:00:00" (by unfold steadyState; decide) (by decide)
      (by decide)⟩

/-- Equal images under an injective-on-members map force equal members. -/
theorem eq_of_map_nodup {α β : Type} (fn : α → β) :
    ∀ (l : List α), (l.map fn).Nodup →
      ∀ f ∈ l, ∀ g ∈ l, fn f = fn g → f = g := by
  intro l
  induction l with
  | nil => intro _ f hf; cases hf
  | cons x rest ih =>
    intro h f hf g hg he
    rw [List.map_cons, List.nodup_cons] at h
    rcases List.mem_cons.mp hf with rfl | hf2
    · rcases List.mem_cons.mp hg with rfl | hg2
      · rfl
      · exact absurd (he ▸ List.mem_map_of_mem fn hg2) h.1
    · rcases List.mem_cons.mp hg with rfl | hg2
      · exact absurd (he ▸ List.mem_map_of_mem fn hf2) h.1
      · exact ih h.2 f hf2 g hg2 he

/-- Dated snapshot names end in ".json" and are caught by the glob. -/
theorem snapName_json (t : String) : endsWithJson (snapName t) = true := by
  unfold endsWithJson snapName
  rw [List.isSuffixOf_iff_suffix]
  refine ⟨"novel_forge_db_".data ++ t.data, ?_⟩
  rw [String.data_append, String.data_append]

/-- Sortedness and permutation facts for the snapshot mtime sort. -/
theorem snapshot_sort_facts (l : List (String × Nat)) :
    (l.insertionSort (fun a b => b.2 ≤ a.2)).Perm l
    ∧ List.Sorted (fun (a b : String × Nat) => b.2 ≤ a.2)
        (l.insertionSort (fun a b => b.2 ≤ a.2)) :=
  ⟨List.perm_insertionSort _ l,
    @List.sorted_insertionSort (String × Nat) (fun a b => b.2 ≤ a.2) _
      ⟨fun a b => le_total b.2 a.2⟩ ⟨fun _ _ _ hab hbc => le_trans hbc hab⟩ l⟩

/-- Common analysis of a `create_snapshot` call on a directory that has no
snapshot for today yet, whose names are distinct, and whose mtimes are all
below the fresh file's: the copied file is never pruned, and every pruned
file is an old file of the directory. -/
theorem create_snapshot_fresh (dir : List (String × Nat)) (t : String)
    (m : Nat)
    (hnotin : snapName t ∉ dir.map Prod.fst)
    (hm : ∀ f ∈ dir, f.2 < m)
    (hnames : (dir.map Prod.fst).Nodup) :
    create_snapshot dir t m
      = (dir ++ [(snapName t, m)]).filter (fun f =>
          !((((dir ++ [(snapName t, m)]).filter
              (fun f => endsWithJson f.1)).insertionSort
                (fun a b => b.2 ≤ a.2)).drop MAX_SNAPSHOTS).any
            (fun g => g.1 == f.1))
    ∧ ((snapName t, m) ∈ create_snapshot dir t m)
    ∧ (∀ f ∈ create_snapshot dir t m, f ∈ dir ++ [(snapName t, m)])
    ∧ (∀ f ∈ dir ++ [(snapName t, m)], f.1 = snapName t → f = (snapName t, m)) := by
  have hany : (dir.any (fun f => f.1 == snapName t)) = false := by
    rw [List.any_eq_false]
    intro f hf
    simp only [beq_iff_eq]
    intro he
    exact hnotin (he ▸ List.mem_map_of_mem Prod.fst hf)
  have huniq : ∀ f ∈ dir ++ [(snapName t, m)], f.1 = snapName t
      → f = (snapName t, m) := by
    intro f hf he
    rcases List.mem_append.mp hf with hfd | hfn
    · exact absurd (he ▸ List.mem_map_of_mem Prod.fst hfd) hnotin
    · simpa using hfn
  have hn1 : ((dir ++ [(snapName t, m)]).map Prod.fst).Nodup := by
    rw [List.map_append, List.nodup_append]
    refine ⟨hnames, by simp, ?_⟩
    intro a ha hb
    simp only [List.map_cons, List.map_nil, List.mem_cons,
      List.not_mem_nil, or_false] at hb
    exact hnotin (hb ▸ ha)
  have hn2 : (dir ++ [(snapName t, m)]).Nodup := List.Nodup.of_map _ hn1
  obtain ⟨hperm, hsorted⟩ := snapshot_sort_facts
    ((dir ++ [(snapName t, m)]).filter (fun f => endsWithJson f.1))
  have hsortnd : (((dir ++ [(snapName t, m)]).filter
      (fun f => endsWithJson f.1)).insertionSort
        (fun a b => b.2 ≤ a.2)).Nodup :=
    hperm.nodup_iff.mpr (List.Nodup.filter _ hn2)
  have hnew_not_old : (snapName t, m) ∉ (((dir ++ [(snapName t, m)]).filter
      (fun f => endsWithJson f.1)).insertionSort
        (fun a b => b.2 ≤ a.2)).drop MAX_SNAPSHOTS := by
    intro hdrop
    have hlen : MAX_SNAPSHOTS < (((dir ++ [(snapName t, m)]).filter
        (fun f => endsWithJson f.1)).insertionSort
          (fun a b => b.2 ≤ a.2)).length := by
      by_contra hle
      rw [not_lt] at hle
      rw [List.drop_eq_nil_of_le hle] at hdrop
      cases hdrop
    have htake : (((dir ++ [(snapName t, m)]).filter
        (fun f => endsWithJson f.1)).insertionSort
          (fun a b => b.2 ≤ a.2)).take MAX_SNAPSHOTS ≠ [] := by
      intro h0
      have := congrArg List.length h0
      rw [List.length_take] at this
      simp only [List.length_nil] at this
      unfold MAX_SNAPSHOTS at this hlen
      omega
    obtain ⟨x, hx⟩ := List.exists_mem_of_ne_nil _ htake
    have hrel := List.Sorted.rel_of_mem_take_of_mem_drop hsorted hx hdrop
    have hxs : x ∈ ((dir ++ [(snapName t, m)]).filter
        (fun f => endsWithJson f.1)).insertionSort (fun a b => b.2 ≤ a.2) :=
      List.mem_of_mem_take hx
    have hxd : x ∈ dir ++ [(snapName t, m)] :=
      List.mem_of_mem_filter (hperm.mem_iff.mp hxs)
    rcases List.mem_append.mp hxd with hxdir | hxnew
    · have := hm x hxdir
      simp only at hrel
      omega
    · have hxe : x = (snapName t, m) := by simpa using hxnew
      subst hxe
      rw [← List.take_append_drop MAX_SNAPSHOTS (((dir ++ [(snapName t, m)]).filter
        (fun f => endsWithJson f.1)).insertionSort
          (fun a b => b.2 ≤ a.2)), List.nodup_append] at hsortnd
      exact hsortnd.2.2 hx hdrop
  have hkeepnew : (!((((dir ++ [(snapName t, m)]).filter
      (fun f => endsWithJson f.1)).insertionSort
        (fun a b => b.2 ≤ a.2)).drop MAX_SNAPSHOTS).any
      (fun g => g.1 == (snapName t, m).1)) = true := by
    rw [Bool.not_eq_true', List.any_eq_false]
    intro g hg
    simp only [beq_iff_eq]
    intro he
    have hgs : g ∈ ((dir ++ [(snapName t, m)]).filter
        (fun f => endsWithJson f.1)).insertionSort (fun a b => b.2 ≤ a.2) :=
      List.mem_of_mem_drop hg
    have hgd : g ∈ dir ++ [(snapName t, m)] :=
      List.mem_of_mem_filter (hperm.mem_iff.mp hgs)
    have := huniq g hgd he
    rw [this] at hg
    exact hnew_not_old hg
  have heq : create_snapshot dir t m
      = (dir ++ [(snapName t, m)]).filter (fun f =>
          !((((dir ++ [(snapName t, m)]).filter
              (fun f => endsWithJson f.1)).insertionSort
                (fun a b => b.2 ≤ a.2)).drop MAX_SNAPSHOTS).any
            (fun g => g.1 == f.1)) := by
    unfold create_snapshot
    rw [if_neg (by rw [hany]; exact fun h => Bool.false_ne_true h)]
  refine ⟨heq, ?_, ?_, huniq⟩
  · rw [heq]
    exact List.mem_filter.mpr ⟨by simp, hkeepnew⟩
  · intro f hf
    rw [heq] at hf
    exact (List.mem_filter.mp hf).1

/-- C7 (confirmed): calling `create_snapshot` twice on the same local date
produces exactly one snapshot file for that date — the first call copies the
backing file to the dated backup (and pruning never removes it, as it is the
newest file), and the second call on the same date performs no copy at all,
returning the directory unchanged. -/
theorem c7_snapshot_idempotent (dir : List (String × Nat)) (t : String)
    (m : Nat)
    (hnotin : snapName t ∉ dir.map Prod.fst)
    (hm : ∀ f ∈ dir, f.2 < m)
    (hnames : (dir.map Prod.fst).Nodup) :
    ((snapName t, m) ∈ create_snapshot dir t m)
    ∧ (∀ f ∈ create_snapshot dir t m, f.1 = snapName t → f = (snapName t, m))
    ∧ (∀ m2, create_snapshot (create_snapshot dir t m) t m2
        = create_snapshot dir t m) := by
  obtain ⟨-, hmem, hsub, huniq⟩ := create_snapshot_fresh dir t m hnotin hm hnames
  refine ⟨hmem, ?_, ?_⟩
  · intro f hf he
    exact huniq f (hsub f hf) he
  · intro m2
    unfold create_snapshot
    rw [if_pos]
    rw [List.any_eq_true]
    exact ⟨(snapName t, m), hmem, by simp⟩

/-- Witness for C7: seven dated snapshots, a fresh snapshot for 2025-05-01
with a newer mtime: the file is created once and the second call is a no-op. -/
theorem c7_snapshot_idempotent_witness :
    ((snapName "2025-05-01", 31) ∈ create_snapshot dir7b "2025-05-01" 31)
    ∧ (∀ f ∈ create_snapshot dir7b "2025-05-01" 31,
        f.1 = snapName "2025-05-01" → f = (snapName "2025-05-01", 31))
    ∧ (∀ m2, create_snapshot (create_snapshot dir7b "2025-05-01" 31)
        "2025-05-01" m2 = create_snapshot dir7b "2025-05-01" 31) :=
  c7_snapshot_idempotent dir7b "2025-05-01" 31 (by decide) (by decide)
    (by decide)

/-- C6 (amended): with MAX_SNAPSHOTS = 5 and seven snapshot files of
pairwise-distinct mtimes and distinct names, none for the current date and
all older than the fresh copy: a `create_snapshot` call first adds the new
(8th, newest) file, then exactly 5 files remain — the new file among them,
all drawn from the 8, and every deleted file is older than every kept file
(so the 3 oldest of the original 7 are deleted).  The today-file-present
branch, where nothing at all happens, is the C6 counterexample. -/
theorem c6_prune_cases (dir : List (String × Nat)) (t : String) (m : Nat)
    (hlen : dir.length = 7)
    (hnames : (dir.map Prod.fst).Nodup)
    (hmtimes : (dir.map Prod.snd).Nodup)
    (hjson : ∀ f ∈ dir, endsWithJson f.1 = true)
    (hnotin : snapName t ∉ dir.map Prod.fst)
    (hm : ∀ f ∈ dir, f.2 < m) :
    (create_snapshot dir t m).length = 5
    ∧ ((snapName t, m) ∈ create_snapshot dir t m)
    ∧ (∀ f ∈ create_snapshot dir t m, f ∈ dir ++ [(snapName t, m)])
    ∧ (∀ g ∈ dir ++ [(snapName t, m)], g ∉ create_snapshot dir t m →
        ∀ f ∈ create_snapshot dir t m, g.2 < f.2) := by
  obtain ⟨heq, hmem, hsub, huniq⟩ := create_snapshot_fresh dir t m hnotin hm hnames
  have hjson1 : (dir ++ [(snapName t, m)]).filter (fun f => endsWithJson f.1)
      = dir ++ [(snapName t, m)] := by
    rw [List.filter_eq_self]
    intro f hf
    rcases List.mem_append.mp hf with hfd | hfn
    · exact hjson f hfd
    · have : f = (snapName t, m) := by simpa using hfn
      rw [this]
      exact snapName_json t
  rw [hjson1] at heq
  obtain ⟨hperm, hsorted⟩ := snapshot_sort_facts (dir ++ [(snapName t, m)])
  have hlen1 : (dir ++ [(snapName t, m)]).length = 8 := by
    rw [List.length_append, hlen]
    rfl
  have hlensort : ((dir ++ [(snapName t, m)]).insertionSort
      (fun a b => b.2 ≤ a.2)).length = 8 := by
    rw [hperm.length_eq, hlen1]
  have hn1 : ((dir ++ [(snapName t, m)]).map Prod.fst).Nodup := by
    rw [List.map_append, List.nodup_append]
    refine ⟨hnames, by simp, ?_⟩
    intro a ha hb
    simp only [List.map_cons, List.map_nil, List.mem_cons,
      List.not_mem_nil, or_false] at hb
    exact hnotin (hb ▸ ha)
  have hn2 : (dir ++ [(snapName t, m)]).Nodup := List.Nodup.of_map _ hn1
  have hm1 : ((dir ++ [(snapName t, m)]).map Prod.snd).Nodup := by
    rw [List.map_append, List.nodup_append]
    refine ⟨hmtimes, by simp, ?_⟩
    intro a ha hb
    simp only [List.map_cons, List.map_nil, List.mem_cons,
      List.not_mem_nil, or_false] at hb
    obtain ⟨f, hf, hfa⟩ := List.mem_map.mp ha
    have := hm f hf
    omega
  have hsortnd : ((dir ++ [(snapName t, m)]).insertionSort
      (fun a b => b.2 ≤ a.2)).Nodup := hperm.nodup_iff.mpr hn2
  have hnd2 : ((((dir ++ [(snapName t, m)]).insertionSort
      (fun a b => b.2 ≤ a.2)).take MAX_SNAPSHOTS)
        ++ (((dir ++ [(snapName t, m)]).insertionSort
          (fun a b => b.2 ≤ a.2)).drop MAX_SNAPSHOTS)).Nodup := by
    rw [List.take_append_drop]
    exact hsortnd
  have hdisj := (List.nodup_append.mp hnd2).2.2
  have hsortname : (((dir ++ [(snapName t, m)]).insertionSort
      (fun a b => b.2 ≤ a.2)).map Prod.fst).Nodup :=
    (hperm.map Prod.fst).nodup_iff.mpr hn1
  have hkeep_take : ∀ f ∈ ((dir ++ [(snapName t, m)]).insertionSort
      (fun a b => b.2 ≤ a.2)).take MAX_SNAPSHOTS,
      (!((((dir ++ [(snapName t, m)]).insertionSort
        (fun a b => b.2 ≤ a.2)).drop MAX_SNAPSHOTS).any
          (fun g => g.1 == f.1))) = true := by
    intro f hf
    rw [Bool.not_eq_true', List.any_eq_false]
    intro g hg
    simp only [beq_iff_eq]
    intro he
    have hfs := List.mem_of_mem_take hf
    have hgs := List.mem_of_mem_drop hg
    have := eq_of_map_nodup Prod.fst _ hsortname g hgs f hfs he
    rw [this] at hg
    exact hdisj hf hg
  have hdrop_drop : ∀ f ∈ ((dir ++ [(snapName t, m)]).insertionSort
      (fun a b => b.2 ≤ a.2)).drop MAX_SNAPSHOTS,
      (!((((dir ++ [(snapName t, m)]).insertionSort
        (fun a b => b.2 ≤ a.2)).drop MAX_SNAPSHOTS).any
          (fun g => g.1 == f.1))) = false := by
    intro f hf
    rw [Bool.not_eq_false', List.any_eq_true]
    exact ⟨f, hf, by simp⟩
  have hfseq : ((((dir ++ [(snapName t, m)]).insertionSort
      (fun a b => b.2 ≤ a.2)).take MAX_SNAPSHOTS)
        ++ (((dir ++ [(snapName t, m)]).insertionSort
          (fun a b => b.2 ≤ a.2)).drop MAX_SNAPSHOTS)).filter (fun f =>
            !((((dir ++ [(snapName t, m)]).insertionSort
              (fun a b => b.2 ≤ a.2)).drop MAX_SNAPSHOTS).any
                (fun g => g.1 == f.1)))
      = (((dir ++ [(snapName t, m)]).insertionSort
          (fun a b => b.2 ≤ a.2)).take MAX_SNAPSHOTS) := by
    rw [List.filter_append, List.filter_eq_self.mpr hkeep_take,
      List.filter_eq_nil_iff.mpr (fun f hf =>
        by rw [hdrop_drop f hf]; exact fun h => Bool.false_ne_true h),
      List.append_nil]
  rw [List.take_append_drop] at hfseq
  have hd1perm : (create_snapshot dir t m).Perm
      (((dir ++ [(snapName t, m)]).insertionSort
        (fun a b => b.2 ≤ a.2)).take MAX_SNAPSHOTS) := by
    rw [heq, ← hfseq]
    exact (hperm.filter (fun f =>
      !((((dir ++ [(snapName t, m)]).insertionSort
        (fun a b => b.2 ≤ a.2)).drop MAX_SNAPSHOTS).any
          (fun g => g.1 == f.1)))).symm
  refine ⟨?_, hmem, hsub, ?_⟩
  · rw [hd1perm.length_eq, List.length_take, hlensort]
    rfl
  · intro g hg hgn f hf
    have hgs : g ∈ (dir ++ [(snapName t, m)]).insertionSort
        (fun a b => b.2 ≤ a.2) := hperm.mem_iff.mpr hg
    have hgdrop : g ∈ ((dir ++ [(snapName t, m)]).insertionSort
        (fun a b => b.2 ≤ a.2)).drop MAX_SNAPSHOTS := by
      have hsplit : g ∈ (((dir ++ [(snapName t, m)]).insertionSort
          (fun a b => b.2 ≤ a.2)).take MAX_SNAPSHOTS)
            ++ (((dir ++ [(snapName t, m)]).insertionSort
              (fun a b => b.2 ≤ a.2)).drop MAX_SNAPSHOTS) := by
        rw [List.take_append_drop]
        exact hgs
      rcases List.mem_append.mp hsplit with htk | hdp
      · exact absurd (hd1perm.mem_iff.mpr htk) hgn
      · exact hdp
    have hftake : f ∈ ((dir ++ [(snapName t, m)]).insertionSort
        (fun a b => b.2 ≤ a.2)).take MAX_SNAPSHOTS := hd1perm.mem_iff.mp hf
    have hrel := List.Sorted.rel_of_mem_take_of_mem_drop hsorted hftake hgdrop
    have hne : f ≠ g := fun he => hdisj hftake (he ▸ hgdrop)
    have hfs := List.mem_of_mem_take hftake
    have hgs2 := List.mem_of_mem_drop hgdrop
    have hsortmt : (((dir ++ [(snapName t, m)]).insertionSort
        (fun a b => b.2 ≤ a.2)).map Prod.snd).Nodup :=
      (hperm.map Prod.snd).nodup_iff.mpr hm1
    have hne2 : f.2 ≠ g.2 := fun he =>
      hne (eq_of_map_nodup Prod.snd _ hsortmt f hfs g hgs2 he)
    simp only at hrel
    omega

/-- Witness for C6 (amended): seven concrete dated snapshots, all older than
the fresh 2025-05-01 copy. -/
theorem c6_prune_cases_witness :
    (create_snapshot dir7b "2025-05-01" 31).length = 5
    ∧ ((snapName "2025-05-01", 31) ∈ create_snapshot dir7b "2025-05-01" 31)
    ∧ (∀ f ∈ create_snapshot dir7b "2025-05-01" 31,
        f ∈ dir7b ++ [(snapName "2025-05-01", 31)])
    ∧ (∀ g ∈ dir7b ++ [(snapName "2025-05-01", 31)],
        g ∉ create_snapshot dir7b "2025-05-01" 31 →
        ∀ f ∈ create_snapshot dir7b "2025-05-01" 31, g.2 < f.2) :=
  c6_prune_cases dir7b "2025-05-01" 31 (by decide) (by decide) (by decide)
    (by decide) (by decide) (by decide)

/-- Witness for C10: on a state holding a chapter with no id, a chapter with
id 0 and an id-less editing pass alongside proper records, the save equals
the save of the truthy-id restriction and the resulting store only holds
records with truthy supplied ids. -/
theorem c10_falsy_ids_skipped_witness :
    (save_data mixedStore mixedState "now"
      = save_data mixedStore (filterTruthy mixedState) "now")
    ∧ (∀ p ∈ mixedResult.chapters,
        ∃ ch ∈ mixedState.chapters, ch.id = some p.1 ∧ p.1 ≠ 0)
    ∧ (∀ p ∈ mixedResult.editing_passes,
        ∃ ep ∈ mixedState.editing_passes, ep.id = some p.1 ∧ p.1 ≠ 0)
    ∧ (∀ p ∈ mixedResult.todos,
        ∃ td ∈ mixedState.todos, td.id = some p.1 ∧ p.1 ≠ 0) :=
  ⟨c10_falsy_ids_skipped.1 mixedStore mixedState "now",
    c10_falsy_ids_skipped.2 mixedStore mixedState "now" mixedResult (by rfl)⟩

end NovelForge
